import Mathlib

/-!
Cluster policy history event bundle: a shallow embedding of
`agent/pkg/status/bundle/grc/cluster_policy_status_event_bundle.go`
(the producer-side accumulator of deduplicated policy compliance events)
together with the properties its specification states about it. The file also
embeds `reconcileDatabase` of
`operator/pkg/controllers/hubofhubs/globalhub_database.go`, and holds a model of the
consumer-side Merge Engine that is written from the specification, because that code
is not among the sources (only its test is).

Modelling conventions

* Go pointers into the slice `bundlePolicyStatusEvents` are modelled by the
  position of the pointed-to row in that slice; rows are only ever appended at
  the end, so positions of earlier rows are stable while `UpdateObject` runs.
* Go maps are modelled as total functions into `Option`.
* `time.Time` is an instant together with a location; `Time.Equal` compares the
  instants only, as in the Go standard library.
* `Count` and `DatabaseReconcileCounter` are Go `int` (64 bits wide on the platforms
  the agent and the operator are built for) and `Generation` is Go `uint64`. They are
  carried by `Int` and `Nat`, and every `+ 1` of the source wraps around as the
  machine addition does (`wrapInt64`, `wrapUint64`).
* the mutex, the logger and the context do not influence the computed state and
  are left out; the external lookups `helper.GetRootPolicy` and
  `helper.GetClusterId` and the two label-key constants are parameters (`Env`), and
  so is everything `reconcileDatabase` meets outside itself (`DbEnv`).
-/

namespace Grc

/-! ## Data model -/

/-- Go `time.Time`: an instant (nanoseconds) and a location name. -/
structure Time where
  nanos : Int
  loc : String
deriving DecidableEq, Repr

/-- Go `Time.Equal`: the two values denote the same instant, whatever their location. -/
def Time.Equal (t u : Time) : Bool := decide (t.nanos = u.nanos)

/-- Go `models.LocalClusterPolicyEvent` (with the embedded `BaseLocalPolicyEvent`). -/
structure LocalClusterPolicyEvent where
  EventName : String
  PolicyID : String
  Message : String
  LeafHubName : String
  Reason : String
  Count : Int
  Source : Option String
  CreatedAt : Time
  Compliance : String
  ClusterID : String
deriving DecidableEq, Repr

/-- Go `policiesv1.ComplianceHistory`. -/
structure ComplianceHistory where
  LastTimestamp : Time
  Message : String
  EventName : String
deriving DecidableEq, Repr

/-- Go `policiesv1.DetailsPerTemplate`: the fields read by the bundle. `History` is
`none` for a nil slice. -/
structure DetailsPerTemplate where
  ComplianceState : String
  History : Option (List ComplianceHistory)
deriving DecidableEq, Repr

/-- Go `policiesv1.Policy`: the fields read by the bundle. `Details` is `none` when
`Status.Details` is nil. -/
structure Policy where
  UID : String
  Labels : String → Option String
  Details : Option (List DetailsPerTemplate)

/-- Go `bundlepkg.Object`: either a `*policiesv1.Policy` or an object of another kind. -/
inductive Object where
  | policy (p : Policy)
  | other (uid : String)

/-- Go `statusbundle.BundleVersion`. -/
structure BundleVersion where
  Incarnation : Nat
  Generation : Nat
deriving DecidableEq, Repr

/-- Go `ClusterPolicyHistoryEventBundle`: the state that `UpdateObject` and
`DeleteObject` read and write. -/
structure ClusterPolicyHistoryEventBundle where
  PolicyStatusEvents : String → Option (List LocalClusterPolicyEvent)
  LeafHubName : String
  BundleVersion : BundleVersion

/-- The collaborators of one `UpdateObject` call: the two label keys
(`constants.PolicyEventRootPolicyNameLabelKey`, `constants.PolicyEventClusterNameLabelKey`)
and the results of `helper.GetRootPolicy` and `helper.GetClusterId`. -/
structure Env where
  PolicyEventRootPolicyNameLabelKey : String
  PolicyEventClusterNameLabelKey : String
  GetRootPolicy : String → Except String Policy
  GetClusterId : String → Except String String

/-! ## Machine integers -/

/-- The value of a Go `int` (64 bits, two's complement) after an arithmetic operation
whose exact result is `x`: the result wraps around into `-2^63 .. 2^63 - 1`. -/
def wrapInt64 (x : Int) : Int :=
  (x + 9223372036854775808) % 18446744073709551616 - 9223372036854775808

/-- The value of a Go `uint64` after an arithmetic operation whose exact result is `n`:
the result wraps around into `0 .. 2^64 - 1`. -/
def wrapUint64 (n : Nat) : Nat := n % 18446744073709551616

/-! ## ParseCompliance -/

/-- The class `\w` of Go regular expressions: ASCII letters, digits and `_`. -/
def isWordChar (c : Char) : Bool := c.isAlphanum || c == '_'

/-- Match `(\w+);` anchored at the head of the input: the greedy run of word
characters, which has to be non-empty and followed by `;`. -/
def matchAt (cs : List Char) : Option (List Char) :=
  if cs.takeWhile isWordChar ≠ [] ∧ (cs.dropWhile isWordChar).head? = some ';' then
    some (cs.takeWhile isWordChar)
  else none

/-- Go `regex.FindStringSubmatch` for `(\w+);`: the capture group of the leftmost
match, trying the start positions from left to right. -/
def findSubmatch : List Char → Option (List Char)
  | [] => none
  | c :: cs =>
    match matchAt (c :: cs) with
    | some w => some w
    | none => findSubmatch cs

/-- Go `unicode.IsSpace`. -/
def isSpace (c : Char) : Bool :=
  let n := c.toNat
  (0x09 ≤ n && n ≤ 0x0d) || n == 0x20 || n == 0x85 || n == 0xa0 || n == 0x1680 ||
  (0x2000 ≤ n && n ≤ 0x200a) || n == 0x2028 || n == 0x2029 || n == 0x202f ||
  n == 0x205f || n == 0x3000

/-- Go `strings.TrimSpace` on a list of characters. -/
def trimSpaceChars (cs : List Char) : List Char :=
  ((cs.dropWhile isSpace).reverse.dropWhile isSpace).reverse

/-- Go `strings.TrimSpace`. -/
def TrimSpace (s : String) : String := String.mk (trimSpaceChars s.toList)

/-- Go `ClusterPolicyHistoryEventBundle.ParseCompliance`. -/
def ParseCompliance (message : String) : String :=
  match findSubmatch message.toList with
  | some w => TrimSpace (String.mk w)
  | none => ""

/-! ## updatePolicyEvents and UpdateObject -/

/-- The loop `for _, e := range bundlePolicyStatusEvents` that fills
`bundleEventMap`: a later row overwrites the entry of an earlier row of the same
name. `i` is the position of the head of the list. -/
def buildEventMapFrom (i : Nat) :
    List LocalClusterPolicyEvent → (String → Option Nat) → (String → Option Nat)
  | [], m => m
  | e :: es, m => buildEventMapFrom (i + 1) es (fun k => if k = e.EventName then some i else m k)

/-- The map `bundleEventMap` as built by `UpdateObject` from the stored rows. -/
def buildEventMap (evs : List LocalClusterPolicyEvent) : String → Option Nat :=
  buildEventMapFrom 0 evs (fun _ => none)

/-- Go `delete(bundleEventMap, name)`. -/
def deleteKey (m : String → Option Nat) (name : String) : String → Option Nat :=
  fun k => if k = name then none else m k

/-- The compliance label of a history entry: the parsed token, or the parent
detail's compliance state when no token is found. -/
def deriveCompliance (message parentCompliance : String) : String :=
  if ParseCompliance message = "" then parentCompliance else ParseCompliance message

/-- Go `ClusterPolicyHistoryEventBundle.updatePolicyEvents`. The result is the new
slice and the new value of `*modified`. A pointer held by `bundleEventMap` always
points to a row of the slice, so the branch for a position outside the slice is never
taken (`PtrInv` below); it leaves everything as it is. -/
def updatePolicyEvents (event : ComplianceHistory) (parentCompliance : String)
    (bundleEventMap : String → Option Nat) (rootPolicyId clusterId : String)
    (bundlePolicyStatusEvents : List LocalClusterPolicyEvent) (modified : Bool) :
    List LocalClusterPolicyEvent × Bool :=
  let compliance := deriveCompliance event.Message parentCompliance
  let eventTime := event.LastTimestamp
  match bundleEventMap event.EventName with
  | some i =>
    match bundlePolicyStatusEvents[i]? with
    | some bundleEvent =>
      if !bundleEvent.CreatedAt.Equal eventTime then
        (bundlePolicyStatusEvents.set i
          { bundleEvent with
            Message := event.Message
            Count := wrapInt64 (bundleEvent.Count + 1)
            CreatedAt := eventTime
            Compliance := compliance }, true)
      else (bundlePolicyStatusEvents, modified)
    | none => (bundlePolicyStatusEvents, modified)
  | none =>
    (bundlePolicyStatusEvents ++
      [{ EventName := event.EventName
         PolicyID := rootPolicyId
         Message := event.Message
         LeafHubName := ""
         Reason := "PolicyStatusSync"
         Source := none
         Count := 1
         Compliance := compliance
         CreatedAt := eventTime
         ClusterID := clusterId }], true)

/-- The local variables of `UpdateObject` that its loops change. -/
structure LoopState where
  events : List LocalClusterPolicyEvent
  eventMap : String → Option Nat
  modified : Bool

/-- One iteration of the inner loop `for _, event := range detail.History`. -/
def historyStep (rootPolicyId clusterId : String) (s : LoopState)
    (entry : String × ComplianceHistory) : LoopState :=
  let r := updatePolicyEvents entry.2 entry.1 s.eventMap rootPolicyId clusterId
    s.events s.modified
  { events := r.1, eventMap := deleteKey s.eventMap entry.2.EventName, modified := r.2 }

/-- The inner loop `for _, event := range detail.History`. -/
def historyLoop (rootPolicyId clusterId parentCompliance : String) :
    List ComplianceHistory → LoopState → LoopState
  | [], s => s
  | event :: rest, s =>
    historyLoop rootPolicyId clusterId parentCompliance rest
      (historyStep rootPolicyId clusterId s (parentCompliance, event))

/-- The outer loop `for _, detail := range policy.Status.Details`. -/
def detailsLoop (rootPolicyId clusterId : String) :
    List DetailsPerTemplate → LoopState → LoopState
  | [], s => s
  | detail :: rest, s =>
    match detail.History with
    | some history =>
      detailsLoop rootPolicyId clusterId rest
        (historyLoop rootPolicyId clusterId detail.ComplianceState history s)
    | none => detailsLoop rootPolicyId clusterId rest s

/-- The loop that builds `shrunkPolicyEvents`: the rows whose name is no longer a
key of `bundleEventMap`. -/
def shrink (s : LoopState) : List LocalClusterPolicyEvent :=
  s.events.filter (fun e => (s.eventMap e.EventName).isNone)

/-- Go `bundle.PolicyStatusEvents[uid] = evs`. -/
def setEvents (m : String → Option (List LocalClusterPolicyEvent)) (uid : String)
    (evs : List LocalClusterPolicyEvent) : String → Option (List LocalClusterPolicyEvent) :=
  fun k => if k = uid then some evs else m k

/-- The part of `UpdateObject` after the lookups ("update the object to bundle"). -/
def updateResolved (bundle : ClusterPolicyHistoryEventBundle) (uid : String)
    (details : List DetailsPerTemplate) (rootPolicyId clusterId : String) :
    ClusterPolicyHistoryEventBundle :=
  let bundlePolicyStatusEvents := (bundle.PolicyStatusEvents uid).getD []
  let s := detailsLoop rootPolicyId clusterId details
    { events := bundlePolicyStatusEvents
      eventMap := buildEventMap bundlePolicyStatusEvents
      modified := false }
  if s.modified then
    { bundle with
      PolicyStatusEvents := setEvents bundle.PolicyStatusEvents uid (shrink s)
      BundleVersion := { bundle.BundleVersion with
        Generation := wrapUint64 (bundle.BundleVersion.Generation + 1) } }
  else bundle

/-- Go `ClusterPolicyHistoryEventBundle.UpdateObject`. -/
def UpdateObject (env : Env) (bundle : ClusterPolicyHistoryEventBundle) (object : Object) :
    ClusterPolicyHistoryEventBundle :=
  match object with
  | .other _ => bundle
  | .policy policy =>
    match policy.Details with
    | none => bundle
    | some details =>
      match policy.Labels env.PolicyEventRootPolicyNameLabelKey with
      | none => bundle
      | some rootPolicyNamespacedName =>
        match env.GetRootPolicy rootPolicyNamespacedName with
        | .error _ => bundle
        | .ok rootPolicy =>
          match policy.Labels env.PolicyEventClusterNameLabelKey with
          | none => bundle
          | some clusterName =>
            match env.GetClusterId clusterName with
            | .error _ => bundle
            | .ok clusterId =>
              updateResolved bundle policy.UID details rootPolicy.UID clusterId

/-- Go `ClusterPolicyHistoryEventBundle.DeleteObject`. -/
def DeleteObject (bundle : ClusterPolicyHistoryEventBundle) (object : Object) :
    ClusterPolicyHistoryEventBundle :=
  match object with
  | .other _ => bundle
  | .policy policy =>
    { bundle with
      PolicyStatusEvents := fun k => if k = policy.UID then none else bundle.PolicyStatusEvents k }

/-- Go `NewClusterPolicyHistoryEventBundle`. -/
def NewClusterPolicyHistoryEventBundle (leafHubName : String) (incarnation : Nat) :
    ClusterPolicyHistoryEventBundle :=
  { PolicyStatusEvents := fun _ => none
    LeafHubName := leafHubName
    BundleVersion := { Incarnation := incarnation, Generation := 0 } }

/-- Go `ClusterPolicyHistoryEventBundle.GetBundleVersion`. -/
def GetBundleVersion (bundle : ClusterPolicyHistoryEventBundle) : BundleVersion :=
  bundle.BundleVersion

/-! ## Auxiliary notions used to state the properties -/

/-- The history entries of all status details in the order in which `UpdateObject`
visits them, each paired with the compliance state of its detail. -/
def flatHistory : List DetailsPerTemplate → List (String × ComplianceHistory)
  | [] => []
  | d :: ds => (d.History.getD []).map (fun ev => (d.ComplianceState, ev)) ++ flatHistory ds

/-- The event names of a list of history entries. -/
def entryNames (es : List (String × ComplianceHistory)) : List String :=
  es.map (fun x => x.2.EventName)

/-- The rows of a given event name. -/
def rowsNamed (name : String) (evs : List LocalClusterPolicyEvent) :
    List LocalClusterPolicyEvent :=
  evs.filter (fun r => decide (r.EventName = name))

/-- The stored row that `bundleEventMap` associates with an event name: the last
row of that name (the only one when the names are distinct). -/
def storedEvent (evs : List LocalClusterPolicyEvent) (name : String) :
    Option LocalClusterPolicyEvent :=
  (rowsNamed name evs).getLast?

/-- The rows stored for an object, the empty list when the UID has no entry. -/
def eventsOf (bundle : ClusterPolicyHistoryEventBundle) (uid : String) :
    List LocalClusterPolicyEvent :=
  (bundle.PolicyStatusEvents uid).getD []

/-- The two loops of `UpdateObject` as one pass over the flattened history. -/
def runEntries (rootPolicyId clusterId : String) (es : List (String × ComplianceHistory))
    (s : LoopState) : LoopState :=
  es.foldl (historyStep rootPolicyId clusterId) s

/-- Position `i` holds the name `n` and no later position does. -/
def NamesLast (ns : List String) (i : Nat) (n : String) : Prop :=
  ns[i]? = some n ∧ ∀ j, i < j → ns[j]? ≠ some n

/-- Every pointer of `bundleEventMap` points to the last row of its name. -/
def PtrInv (s : LoopState) : Prop :=
  ∀ n i, s.eventMap n = some i → NamesLast (s.events.map (fun r => r.EventName)) i n

/-! ## The rows written by updatePolicyEvents -/

/-- The row that `updatePolicyEvents` appends for an entry that is not in the map. -/
def addedRow (ev : ComplianceHistory) (parentCompliance rootPolicyId clusterId : String) :
    LocalClusterPolicyEvent :=
  { EventName := ev.EventName
    PolicyID := rootPolicyId
    Message := ev.Message
    LeafHubName := ""
    Reason := "PolicyStatusSync"
    Source := none
    Count := 1
    Compliance := deriveCompliance ev.Message parentCompliance
    CreatedAt := ev.LastTimestamp
    ClusterID := clusterId }

/-- The row that `updatePolicyEvents` writes over a stored row whose timestamp differs. -/
def updatedRow (old : LocalClusterPolicyEvent) (ev : ComplianceHistory)
    (parentCompliance : String) : LocalClusterPolicyEvent :=
  { old with
    Message := ev.Message
    Count := wrapInt64 (old.Count + 1)
    CreatedAt := ev.LastTimestamp
    Compliance := deriveCompliance ev.Message parentCompliance }

/-! ## Loop states -/

/-- The loop state with which `UpdateObject` enters its loops. -/
def initState (stored : List LocalClusterPolicyEvent) : LoopState :=
  { events := stored, eventMap := buildEventMap stored, modified := false }

/-! ## The object and the final loop state -/

/-- The UID of an object (Go `object.GetUID()`). -/
def objectUID : Object → String
  | .policy p => p.UID
  | .other uid => uid

/-- The loop state with which `UpdateObject` leaves its loops. -/
def finalState (bundle : ClusterPolicyHistoryEventBundle) (uid : String)
    (details : List DetailsPerTemplate) (rootPolicyId clusterId : String) : LoopState :=
  runEntries rootPolicyId clusterId (flatHistory details) (initState (eventsOf bundle uid))

/-! ## Concrete inputs -/

/-- An instant in UTC. -/
def tAt (n : Int) : Time := { nanos := n, loc := "UTC" }

/-- A root policy as returned by the lookup. -/
def exRootPolicy : Policy := { UID := "root-uid", Labels := fun _ => none, Details := none }

/-- Collaborators whose lookups succeed. -/
def exEnv : Env :=
  { PolicyEventRootPolicyNameLabelKey := "policy.open-cluster-management.io/root-policy"
    PolicyEventClusterNameLabelKey := "policy.open-cluster-management.io/cluster-name"
    GetRootPolicy := fun _ => .ok exRootPolicy
    GetClusterId := fun _ => .ok "cluster-id" }

/-- Collaborators whose cluster-id lookup fails. -/
def exEnvNoCluster : Env :=
  { exEnv with GetClusterId := fun _ => .error "managed cluster not found" }

/-- The labels of a replicated policy. -/
def exLabels : String → Option String := fun k =>
  if k = "policy.open-cluster-management.io/root-policy" then some "ns.root"
  else if k = "policy.open-cluster-management.io/cluster-name" then some "cluster1"
  else none

/-- A policy object with UID `uid-1`, one status detail and the given history. -/
def exPolicy (history : List ComplianceHistory) : Policy :=
  { UID := "uid-1"
    Labels := exLabels
    Details := some [{ ComplianceState := "NonCompliant", History := some history }] }

/-- The history entry `name@t` with a message. -/
def exEntry (name : String) (t : Int) (msg : String) : ComplianceHistory :=
  { LastTimestamp := tAt t, Message := msg, EventName := name }

/-- A fresh bundle. -/
def exBundle0 : ClusterPolicyHistoryEventBundle := NewClusterPolicyHistoryEventBundle "hub1" 1

/-- The bundle after one update with history `[e1@10]`. -/
def exBundle1 : ClusterPolicyHistoryEventBundle :=
  UpdateObject exEnv exBundle0 (.policy (exPolicy [exEntry "e1" 10 "Compliant; ok"]))

/-- The bundle after a second update that moves `e1` to instant 20 (count 2). -/
def exBundle2 : ClusterPolicyHistoryEventBundle :=
  UpdateObject exEnv exBundle1 (.policy (exPolicy [exEntry "e1" 20 "Compliant; ok"]))

/-- The bundle after one update with history `[e1@10, e2@20]`. -/
def exBundle12 : ClusterPolicyHistoryEventBundle :=
  UpdateObject exEnv exBundle0 (.policy (exPolicy
    [exEntry "e1" 10 "Compliant; ok", exEntry "e2" 20 "NonCompliant; violation"]))

/-- A policy whose history repeats the entry `e1@10`. -/
def exPolicyRepeat : Policy :=
  exPolicy [exEntry "e1" 10 "Compliant; ok", exEntry "e1" 10 "Compliant; ok"]

/-- The characters `c;` with `c` a word character do not occur in the list. -/
def NoHit (cs : List Char) : Prop :=
  ∀ a c b, cs = a ++ c :: ';' :: b → isWordChar c = false

/-- The row stored by `exBundle1`: `e1` seen once, at instant 10. -/
def exRow1 : LocalClusterPolicyEvent :=
  { EventName := "e1"
    PolicyID := "root-uid"
    Message := "Compliant; ok"
    LeafHubName := ""
    Reason := "PolicyStatusSync"
    Count := 1
    Source := none
    CreatedAt := tAt 10
    Compliance := "Compliant"
    ClusterID := "cluster-id" }

/-- The row stored by `exBundle2`: `e1` seen twice, last at instant 20. -/
def exRow2 : LocalClusterPolicyEvent :=
  { exRow1 with Count := 2, CreatedAt := tAt 20 }

/-- The status detail of `exPolicy`. -/
def exDetail (history : List ComplianceHistory) : DetailsPerTemplate :=
  { ComplianceState := "NonCompliant", History := some history }

/-- A character of a whitespace-delimited word: neither white space nor the delimiter. -/
def isTokenChar (c : Char) : Bool := !isSpace c && c != ';'

/-- The specification's rule anchored at the head of the input: a non-empty run of
non-blank characters followed by `;`. -/
def specMatchAt (cs : List Char) : Option (List Char) :=
  if cs.takeWhile isTokenChar ≠ [] ∧ (cs.dropWhile isTokenChar).head? = some ';' then
    some (cs.takeWhile isTokenChar)
  else none

/-- The specification's rule at the leftmost position where it applies. -/
def specFind : List Char → Option (List Char)
  | [] => none
  | c :: cs =>
    match specMatchAt (c :: cs) with
    | some w => some w
    | none => specFind cs

/-- The extraction rule as the specification words it: the first whitespace-delimited
word immediately preceding a literal `;`, trimmed, and the empty string when there is
none. -/
def specFirstWordBeforeSemicolon (message : String) : String :=
  match specFind message.toList with
  | some w => TrimSpace (String.mk w)
  | none => ""

/-! ## Sequences of calls on the bundle -/

/-- One call on the bundle: `UpdateObject` (with the lookup results of that call) or
`DeleteObject`. -/
inductive Call where
  | update (env : Env) (object : Object)
  | delete (object : Object)

/-- The bundle after one call. -/
def applyCall (bundle : ClusterPolicyHistoryEventBundle) : Call → ClusterPolicyHistoryEventBundle
  | .update env object => UpdateObject env bundle object
  | .delete object => DeleteObject bundle object

/-- The bundle after a sequence of calls. -/
def applyCalls (bundle : ClusterPolicyHistoryEventBundle) (calls : List Call) :
    ClusterPolicyHistoryEventBundle :=
  calls.foldl applyCall bundle

/-- A bundle that stores the row `e1@10` for each of the objects `uid-1` and `uid-2`. -/
def exBundleTwo : ClusterPolicyHistoryEventBundle :=
  { exBundle1 with
    PolicyStatusEvents := fun k => if k = "uid-2" then some [exRow1] else
      exBundle1.PolicyStatusEvents k }

/-! ## reconcileDatabase: embedding -/

/-- One call of the callback that `iofs.WalkDir` makes while it walks the embedded
`database` directory, with what the callback meets there: the error handed over by the
walk, whether the entry is a directory, the result of `databaseFS.ReadFile` and the
result of `conn.Exec` on the file's text. -/
structure WalkEntry where
  file : String
  beforeError : Option String
  isDir : Bool
  readFile : Except String String
  exec : Except String Unit

/-- What one `reconcileDatabase` call meets outside the function: the results of
`config.SkipDBInit`, of `condition.ContainConditionStatus` for the database-init condition,
of the secret lookup (`database_uri` and `ca.crt`), of `database.PostgresConnection`, the
walk over the embedded files, the result of `condition.SetConditionDatabaseInit` and the
error wrapper `condition.FailToSetConditionError`. -/
structure DbEnv where
  SkipDBInit : Bool
  databaseInitConditionTrue : Bool
  getSecret : Except String (String × String)
  PostgresConnection : String → String → Except String Unit
  databaseFS : List WalkEntry
  SetConditionDatabaseInit : Except String Unit
  FailToSetConditionError : String → String

/-- The outcome of one `reconcileDatabase` call: the returned error (`none` for nil), the
value of the package variable `DatabaseReconcileCounter` afterwards, the database
connections opened and the SQL texts passed to `conn.Exec`, in order. -/
structure ReconcileResult where
  err : Option String
  DatabaseReconcileCounter : Int
  connections : List (String × String)
  execCalls : List String
deriving DecidableEq, Repr

/-- The callback passed to `iofs.WalkDir`: the returned error and the SQL text passed to
`conn.Exec`, if any. -/
def walkCallback (e : WalkEntry) : Option String × List String :=
  match e.beforeError with
  | some beforeError => (some beforeError, [])
  | none =>
    if e.isDir then (none, [])
    else
      match e.readFile with
      | .error err => (some ("failed to read " ++ e.file ++ ": " ++ err), [])
      | .ok sqlBytes =>
        match e.exec with
        | .error err => (some ("failed to create " ++ e.file ++ ": " ++ err), [sqlBytes])
        | .ok _ => (none, [sqlBytes])

/-- Go `iofs.WalkDir` with that callback, over the calls the walk makes as long as the
callback returns nil: the walk stops at the first error the callback returns. -/
def walkDir : List WalkEntry → Option String × List String
  | [] => (none, [])
  | e :: rest =>
    match walkCallback e with
    | (some err, calls) => (some err, calls)
    | (none, calls) => ((walkDir rest).1, calls ++ (walkDir rest).2)

/-- The part of `reconcileDatabase` after the two early returns: read the storage secret,
connect, execute every embedded SQL file, count the reconcile and set the condition. -/
def runDatabaseInit (env : DbEnv) (counter : Int) : ReconcileResult :=
  match env.getSecret with
  | .error err =>
    { err := some err, DatabaseReconcileCounter := counter, connections := [], execCalls := [] }
  | .ok (databaseUri, caCert) =>
    match env.PostgresConnection databaseUri caCert with
    | .error err =>
      { err := some ("failed to connect to database: " ++ err)
        DatabaseReconcileCounter := counter
        connections := [(databaseUri, caCert)]
        execCalls := [] }
    | .ok _ =>
      match walkDir env.databaseFS with
      | (some err, calls) =>
        { err := some ("failed to exec database sql: " ++ err)
          DatabaseReconcileCounter := counter
          connections := [(databaseUri, caCert)]
          execCalls := calls }
      | (none, calls) =>
        match env.SetConditionDatabaseInit with
        | .error err =>
          { err := some (env.FailToSetConditionError err)
            DatabaseReconcileCounter := wrapInt64 (counter + 1)
            connections := [(databaseUri, caCert)]
            execCalls := calls }
        | .ok _ =>
          { err := none
            DatabaseReconcileCounter := wrapInt64 (counter + 1)
            connections := [(databaseUri, caCert)]
            execCalls := calls }

/-- Go `MulticlusterGlobalHubReconciler.reconcileDatabase`; `counter` is the value of
`DatabaseReconcileCounter` before the call. -/
def reconcileDatabase (env : DbEnv) (counter : Int) : ReconcileResult :=
  if env.SkipDBInit then
    { err := none, DatabaseReconcileCounter := counter, connections := [], execCalls := [] }
  else if env.databaseInitConditionTrue && decide (counter > 0) then
    { err := none, DatabaseReconcileCounter := counter, connections := [], execCalls := [] }
  else runDatabaseInit env counter

/-- Every embedded SQL file is read and executed without error (and the walk reports no
error). -/
def AllFilesExecuted (entries : List WalkEntry) : Prop :=
  ∀ e ∈ entries, e.beforeError = none ∧
    (e.isDir = false → (∃ sql, e.readFile = .ok sql) ∧ e.exec = .ok ())

/-- The SQL texts of the embedded files in the order of the walk: the text of every entry
that is not a directory and can be read. -/
def sqlTexts (entries : List WalkEntry) : List String :=
  entries.filterMap (fun e =>
    if e.isDir then none
    else
      match e.readFile with
      | .ok sqlBytes => some sqlBytes
      | .error _ => none)

/-- The calls of the walk over an embedded directory with two SQL files. -/
def exWalk : List WalkEntry :=
  [{ file := "database", beforeError := none, isDir := true,
     readFile := .error "is a directory", exec := .ok () },
   { file := "database/1.schema.sql", beforeError := none, isDir := false,
     readFile := .ok "CREATE SCHEMA status;", exec := .ok () },
   { file := "database/2.tables.sql", beforeError := none, isDir := false,
     readFile := .ok "CREATE TABLE status.compliance ();", exec := .ok () }]

/-- Collaborators of `reconcileDatabase` that all succeed, with the given results of
`config.SkipDBInit` and of the database-init condition check. -/
def exDbEnv (skip conditionTrue : Bool) : DbEnv :=
  { SkipDBInit := skip
    databaseInitConditionTrue := conditionTrue
    getSecret := .ok ("postgres://storage", "ca")
    PostgresConnection := fun _ _ => .ok ()
    databaseFS := exWalk
    SetConditionDatabaseInit := .ok ()
    FailToSetConditionError := fun e => "failed to set condition: " ++ e }

/-! ## The Merge Engine, modelled from the specification -/

/-- Modelled from the spec: the compliance values of a compliance row (section 3,
`ComplianceRecord`); the Merge Engine and its types are not among the sources, only its
test is. -/
inductive ComplianceStatus where
  | compliant
  | non_compliant
  | unknown
deriving DecidableEq, Repr

/-- Modelled from the spec: the error values of a compliance row (section 3). -/
inductive ErrorStatus where
  | disconnected
  | noError
deriving DecidableEq, Repr

/-- Modelled from the spec: a row of the compliance table (section 3,
`ComplianceRecord`), identified by policy, cluster and leaf hub. -/
structure ComplianceRecord where
  PolicyID : String
  ClusterName : String
  LeafHubName : String
  Compliance : ComplianceStatus
  Error : ErrorStatus
deriving DecidableEq, Repr

/-- Modelled from the spec: the order of versions (section 3): `a` is newer than `b` when
its incarnation is greater, or the incarnations are equal and its generation is greater. -/
def BundleVersion.NewerThan (a b : BundleVersion) : Bool :=
  decide (b.Incarnation < a.Incarnation) ||
    (decide (a.Incarnation = b.Incarnation) && decide (b.Generation < a.Generation))

/-- Modelled from the spec: the state of the Merge Engine (section 4.4): the compliance
rows, and for every scope (policy, leaf hub) the version of the last applied Complete
bundle, against which Delta bundles are checked. -/
structure MergeState where
  rows : List ComplianceRecord
  storedVersion : String → String → Option BundleVersion

/-- Modelled from the spec: a Complete bundle for one policy (sections 3 and 4.4): the
clusters listed as non-compliant and as unknown, with the leaf hub and the version of its
envelope. An envelope with several policies is applied policy by policy. -/
structure CompleteBundle where
  PolicyID : String
  NonCompliantClusters : List String
  UnknownComplianceClusters : List String
  LeafHubName : String
  Version : BundleVersion

/-- Modelled from the spec: a Delta bundle for one policy (sections 3 and 4.4): the
listed cluster-to-compliance transitions, with the leaf hub, the version and the base
version of its envelope. -/
structure DeltaBundle where
  PolicyID : String
  CompliantClusters : List String
  NonCompliantClusters : List String
  UnknownComplianceClusters : List String
  LeafHubName : String
  Version : BundleVersion
  BaseVersion : BundleVersion

/-- The row belongs to the cluster `cluster` of the scope (policy, leaf hub). -/
def rowOf (policyID hub cluster : String) (r : ComplianceRecord) : Prop :=
  r.PolicyID = policyID ∧ r.LeafHubName = hub ∧ r.ClusterName = cluster

/-- Membership of a row in a cluster of a scope is decidable. -/
instance rowOfDecidable (policyID hub cluster : String) (r : ComplianceRecord) :
    Decidable (rowOf policyID hub cluster r) :=
  inferInstanceAs
    (Decidable (r.PolicyID = policyID ∧ r.LeafHubName = hub ∧ r.ClusterName = cluster))

/-- Modelled from the spec: the write of one cluster's compliance (section 4.4, "upsert"):
every row of the cluster in the scope gets the compliance. The spec words the write as an
upsert, while the repository's test expects that a listed cluster without a row gets none;
whether a missing row is inserted is therefore the parameter `insertMissing`. -/
def upsertCompliance (insertMissing : Bool) (policyID hub : String)
    (rows : List ComplianceRecord) (t : String × ComplianceStatus) : List ComplianceRecord :=
  if rows.any (fun r => decide (rowOf policyID hub t.1 r)) then
    rows.map (fun r => if rowOf policyID hub t.1 r then { r with Compliance := t.2 } else r)
  else if insertMissing then
    rows ++ [{ PolicyID := policyID, ClusterName := t.1, LeafHubName := hub,
               Compliance := t.2, Error := .noError }]
  else rows

/-- The transitions listed by a Delta bundle, in the order compliant, non-compliant,
unknown. -/
def deltaTransitions (b : DeltaBundle) : List (String × ComplianceStatus) :=
  b.CompliantClusters.map (fun c => (c, ComplianceStatus.compliant)) ++
  b.NonCompliantClusters.map (fun c => (c, ComplianceStatus.non_compliant)) ++
  b.UnknownComplianceClusters.map (fun c => (c, ComplianceStatus.unknown))

/-- The exceptions listed by a Complete bundle, in the order non-compliant, unknown. -/
def completeTransitions (b : CompleteBundle) : List (String × ComplianceStatus) :=
  b.NonCompliantClusters.map (fun c => (c, ComplianceStatus.non_compliant)) ++
  b.UnknownComplianceClusters.map (fun c => (c, ComplianceStatus.unknown))

/-- Modelled from the spec: Delta bundle apply (section 4.4). The bundle is accepted only
if the version stored for its scope equals its base version; an accepted bundle writes
the listed clusters' compliance and nothing else; a rejected bundle is dropped. The
spec's "(or is newer-compatible with)" is given no meaning by the spec, and its scenario 3
drops a delta whose base version is older than the stored one, so the model accepts on
equality only. The stored version is not moved by a delta: the test applies two deltas
with the same base version one after the other. -/
def applyDelta (insertMissing : Bool) (st : MergeState) (b : DeltaBundle) : MergeState :=
  if st.storedVersion b.PolicyID b.LeafHubName = some b.BaseVersion then
    { st with
      rows := (deltaTransitions b).foldl
        (upsertCompliance insertMissing b.PolicyID b.LeafHubName) st.rows }
  else st

/-- Modelled from the spec: the Complete bundle is accepted if its version is newer than
the version stored for the scope (or none is stored). -/
def completeAccepted (st : MergeState) (b : CompleteBundle) : Bool :=
  match st.storedVersion b.PolicyID b.LeafHubName with
  | none => true
  | some v => b.Version.NewerThan v

/-- Modelled from the spec: the rows of the scope whose cluster is not listed become
compliant ("compliant by omission"); the clusters known to be in scope are those that have
a row for the policy and the leaf hub. -/
def compliantByOmission (b : CompleteBundle) (rows : List ComplianceRecord) :
    List ComplianceRecord :=
  rows.map (fun r =>
    if r.PolicyID = b.PolicyID ∧ r.LeafHubName = b.LeafHubName ∧
        r.ClusterName ∉ b.NonCompliantClusters ∧
        r.ClusterName ∉ b.UnknownComplianceClusters then
      { r with Compliance := .compliant }
    else r)

/-- Modelled from the spec: Complete bundle apply (section 4.4). An accepted bundle makes
the unlisted clusters of the scope compliant, writes the listed exceptions, never deletes
a row, and becomes the stored version of the scope; a stale or duplicate bundle is
dropped. -/
def applyComplete (insertMissing : Bool) (st : MergeState) (b : CompleteBundle) : MergeState :=
  if completeAccepted st b then
    { rows := (completeTransitions b).foldl
        (upsertCompliance insertMissing b.PolicyID b.LeafHubName)
        (compliantByOmission b st.rows)
      storedVersion := fun p h =>
        if p = b.PolicyID ∧ h = b.LeafHubName then some b.Version else st.storedVersion p h }
  else st

/-- The row is not one of a listed cluster of the scope. -/
def unlistedRow (policyID hub : String) (clusters : List String) (r : ComplianceRecord) : Bool :=
  !decide (r.PolicyID = policyID ∧ r.LeafHubName = hub ∧ r.ClusterName ∈ clusters)

/-- The identity of a row: policy, cluster and leaf hub. -/
def rowKey (r : ComplianceRecord) : String × String × String :=
  (r.PolicyID, r.ClusterName, r.LeafHubName)

/-- The policy of the test. -/
def exPolicyId : String := "d9347b09-bb46-4e2b-91ea-513e83ab9ea7"

/-- A compliance row of the test's policy on `hub1`. -/
def exRecord (cluster : String) (c : ComplianceStatus) : ComplianceRecord :=
  { PolicyID := exPolicyId, ClusterName := cluster, LeafHubName := "hub1",
    Compliance := c, Error := .noError }

/-- The store with the given rows in which the Complete bundle of version 6.0 was the last
one applied to the test's scope. -/
def exMergeState (rows : List ComplianceRecord) : MergeState :=
  { rows := rows
    storedVersion := fun p h =>
      if p = exPolicyId ∧ h = "hub1" then some { Incarnation := 6, Generation := 0 } else none }

/-- The store with the given rows and no stored version. -/
def exMergeState0 (rows : List ComplianceRecord) : MergeState :=
  { rows := rows, storedVersion := fun _ _ => none }

/-- The Complete bundle of the test: `cluster1` non-compliant, `cluster3` unknown. -/
def exComplete : CompleteBundle :=
  { PolicyID := exPolicyId, NonCompliantClusters := ["cluster1"],
    UnknownComplianceClusters := ["cluster3"], LeafHubName := "hub1",
    Version := { Incarnation := 6, Generation := 0 } }

/-- The first Delta bundle of the test: `cluster1` compliant, `cluster3` non-compliant,
base version 6.0. -/
def exDelta : DeltaBundle :=
  { PolicyID := exPolicyId, CompliantClusters := ["cluster1"],
    NonCompliantClusters := ["cluster3"], UnknownComplianceClusters := [],
    LeafHubName := "hub1", Version := { Incarnation := 1, Generation := 0 },
    BaseVersion := { Incarnation := 6, Generation := 0 } }

/-! ## The Merge Engine: concrete bundles -/

/-- The clusters listed by a Delta bundle. -/
def deltaListedClusters (b : DeltaBundle) : List String :=
  b.CompliantClusters ++ b.NonCompliantClusters ++ b.UnknownComplianceClusters

/-- A Delta bundle with base version 2.0, older than the stored version 6.0. -/
def exDeltaOldBase : DeltaBundle :=
  { exDelta with BaseVersion := { Incarnation := 2, Generation := 0 } }

/-- A Delta bundle that lists `cluster1` both as compliant and as non-compliant. -/
def exDeltaTwice : DeltaBundle :=
  { exDelta with CompliantClusters := ["cluster1"], NonCompliantClusters := ["cluster1"] }

/-- A Complete bundle that lists `cluster1` both as non-compliant and as unknown. -/
def exCompleteTwice : CompleteBundle :=
  { exComplete with UnknownComplianceClusters := ["cluster1"] }

/-! ## Rows across one call, and a producer that counts without end -/

/-- What one call can do to the rows of an object: a row stored after the call was
stored before it (`orig`), or was created with `Count` 1, or is a row stored before whose
timestamp changed and whose `Count` was increased by 1 in Go `int` arithmetic. -/
def RowStep (orig : List LocalClusterPolicyEvent) (x : LocalClusterPolicyEvent) : Prop :=
  x ∈ orig ∨ x.Count = 1 ∨
    ∃ old ∈ orig, old.EventName = x.EventName ∧ old.CreatedAt.Equal x.CreatedAt = false ∧
      x.Count = wrapInt64 (old.Count + 1)

/-- The call number `k` of a producer that sees the event `e1` of the object `uid-1` at a
new instant on every call: `UpdateObject` with the single history entry `e1@k`. -/
def tickCall (k : Nat) : Call :=
  .update exEnv (.policy (exPolicy [exEntry "e1" (Int.ofNat k) "Compliant; ok"]))

/-- The calls number 1 to `n` of that producer. -/
def tickCalls (n : Nat) : List Call := (List.range n).map (fun k => tickCall (k + 1))

/-- The row stored for `e1` after `n` of these calls. -/
def tickRow (n : Nat) : LocalClusterPolicyEvent :=
  { exRow1 with Count := wrapInt64 (Int.ofNat n), CreatedAt := tAt (Int.ofNat n) }

/-- The bundle after `n` of these calls on a fresh bundle of hub `hub1`, for `n` at least 1. -/
def tickBundle (n : Nat) : ClusterPolicyHistoryEventBundle :=
  { PolicyStatusEvents := fun k => if k = "uid-1" then some [tickRow n] else none
    LeafHubName := "hub1"
    BundleVersion := { Incarnation := 1, Generation := wrapUint64 n } }

/-! ## The loops as a fold -/

theorem historyLoop_eq_foldl (r c pc : String) (h : List ComplianceHistory) (s : LoopState) :
    historyLoop r c pc h s = runEntries r c (h.map (fun ev => (pc, ev))) s := by
  induction h generalizing s with
  | nil => rfl
  | cons ev rest ih => simp [historyLoop, runEntries, ih]

theorem runEntries_append (r c : String) (es fs : List (String × ComplianceHistory))
    (s : LoopState) : runEntries r c (es ++ fs) s = runEntries r c fs (runEntries r c es s) := by
  simp [runEntries, List.foldl_append]

theorem detailsLoop_eq_runEntries (r c : String) (ds : List DetailsPerTemplate) (s : LoopState) :
    detailsLoop r c ds s = runEntries r c (flatHistory ds) s := by
  induction ds generalizing s with
  | nil => rfl
  | cons d rest ih =>
    cases hh : d.History with
    | none => simp [detailsLoop, flatHistory, hh, ih, runEntries]
    | some h =>
      simp [detailsLoop, flatHistory, hh, ih, runEntries_append, historyLoop_eq_foldl]

/-! ## The event map -/

theorem runEntries_eventMap (r c : String) (es : List (String × ComplianceHistory))
    (s : LoopState) (k : String) :
    (runEntries r c es s).eventMap k = if k ∈ entryNames es then none else s.eventMap k := by
  induction es generalizing s with
  | nil => simp [runEntries, entryNames]
  | cons e rest ih =>
    have h := ih (historyStep r c s e)
    simp only [runEntries, List.foldl_cons] at h ⊢
    rw [h]
    simp only [entryNames, List.map_cons, List.mem_cons]
    by_cases hk : k = e.2.EventName
    · simp [hk, historyStep, deleteKey]
    · by_cases hm : k ∈ List.map (fun x => x.2.EventName) rest
      · simp [entryNames, hm]
      · simp [entryNames, hm, hk, historyStep, deleteKey]

theorem buildEventMapFrom_append (o : Nat) (L : List LocalClusterPolicyEvent)
    (e : LocalClusterPolicyEvent) (m : String → Option Nat) (k : String) :
    buildEventMapFrom o (L ++ [e]) m k =
      if k = e.EventName then some (o + L.length) else buildEventMapFrom o L m k := by
  induction L generalizing o m with
  | nil => simp [buildEventMapFrom]
  | cons x xs ih =>
    show buildEventMapFrom (o + 1) (xs ++ [e]) _ k = _
    rw [ih]
    by_cases hk : k = e.EventName
    · simp only [hk, if_true, List.length_cons]
      congr 1
      omega
    · simp [hk, buildEventMapFrom]

theorem buildEventMap_namesLast (L : List LocalClusterPolicyEvent) (n : String) (i : Nat)
    (h : buildEventMap L n = some i) : NamesLast (L.map (fun r => r.EventName)) i n := by
  induction L using List.reverseRecOn generalizing i with
  | nil => simp [buildEventMap, buildEventMapFrom] at h
  | append_singleton L e ih =>
    unfold buildEventMap at h ih
    rw [buildEventMapFrom_append] at h
    by_cases hn : n = e.EventName
    · simp [hn] at h
      subst h
      constructor
      · simp [hn]
      · intro j hj
        rw [List.getElem?_eq_none (by simp; omega)]
        simp
    · simp [hn] at h
      obtain ⟨h1, h2⟩ := ih i h
      have hlt : i < L.length := by
        by_contra hc
        rw [List.getElem?_eq_none (by simp; omega)] at h1
        simp at h1
      constructor
      · simp [List.getElem?_append_left, hlt, h1]
      · intro j hj
        by_cases hjl : j < L.length
        · have := h2 j hj
          simpa [List.getElem?_append_left, hjl] using this
        · by_cases hje : j = L.length
          · subst hje
            simp
            exact fun hc => hn hc.symm
          · rw [List.getElem?_eq_none (by simp; omega)]
            simp

theorem buildEventMap_eq_none (L : List LocalClusterPolicyEvent) (n : String) :
    buildEventMap L n = none ↔ ∀ r ∈ L, r.EventName ≠ n := by
  induction L using List.reverseRecOn with
  | nil => simp [buildEventMap, buildEventMapFrom]
  | append_singleton L e ih =>
    unfold buildEventMap at ih ⊢
    rw [buildEventMapFrom_append]
    by_cases hn : n = e.EventName
    · simp only [hn, if_true]
      constructor
      · intro h; cases h
      · intro h
        exact absurd rfl (h e (by simp))
    · simp only [hn, if_false, ih]
      constructor
      · intro h r hr
        rcases List.mem_append.1 hr with h1 | h1
        · exact h r h1
        · simp at h1; subst h1; exact fun hc => hn hc.symm
      · intro h r hr
        exact h r (List.mem_append_left _ hr)

/-! ## List facts about rows and names -/

theorem getElem?_split {α : Type} (L : List α) (i : Nat) (x : α) (h : L[i]? = some x) :
    ∃ A B, L = A ++ x :: B ∧ A.length = i := by
  induction L generalizing i with
  | nil => simp at h
  | cons y ys ih =>
    cases i with
    | zero =>
      simp at h
      exact ⟨[], ys, by simp [h], rfl⟩
    | succ j =>
      simp at h
      obtain ⟨A, B, hAB, hlen⟩ := ih j h
      exact ⟨y :: A, B, by simp [hAB], by simp [hlen]⟩

theorem set_split {α : Type} (A B : List α) (x y : α) :
    (A ++ x :: B).set A.length y = A ++ y :: B := by
  induction A with
  | nil => simp
  | cons a as ih => simp [ih]

theorem namesLast_split (A B : List LocalClusterPolicyEvent) (x : LocalClusterPolicyEvent)
    (n : String)
    (h : NamesLast ((A ++ x :: B).map (fun r => r.EventName)) A.length n) :
    x.EventName = n ∧ ∀ r ∈ B, r.EventName ≠ n := by
  obtain ⟨h1, h2⟩ := h
  constructor
  · have e0 : ((A ++ x :: B).map (fun r => r.EventName))[A.length]? = some x.EventName := by
      rw [List.map_append, List.getElem?_append_right (by simp)]
      simp
    rw [e0] at h1
    exact Option.some.inj h1
  · intro r hr hrn
    obtain ⟨j, hj, hjr⟩ := List.getElem_of_mem hr
    have := h2 (A.length + 1 + j) (by omega)
    apply this
    have e1 : (A ++ x :: B) = (A ++ [x]) ++ B := by simp
    rw [e1, List.map_append, List.getElem?_append_right (by simp)]
    simp [List.getElem?_eq_getElem, hj, hjr, hrn]

theorem rowsNamed_append (n : String) (A B : List LocalClusterPolicyEvent) :
    rowsNamed n (A ++ B) = rowsNamed n A ++ rowsNamed n B := by
  simp [rowsNamed]

theorem rowsNamed_eq_nil (n : String) (B : List LocalClusterPolicyEvent)
    (h : ∀ r ∈ B, r.EventName ≠ n) : rowsNamed n B = [] := by
  simp only [rowsNamed, List.filter_eq_nil_iff]
  intro r hr
  simpa using h r hr

theorem namesLast_append (ns : List String) (i : Nat) (n m : String)
    (h : NamesLast ns i n) (hm : m ≠ n) : NamesLast (ns ++ [m]) i n := by
  obtain ⟨h1, h2⟩ := h
  have hlt : i < ns.length := by
    by_contra hc
    rw [List.getElem?_eq_none (by omega)] at h1
    simp at h1
  constructor
  · simp [List.getElem?_append_left, hlt, h1]
  · intro j hj
    by_cases hjl : j < ns.length
    · simpa [List.getElem?_append_left, hjl] using h2 j hj
    · by_cases hje : j = ns.length
      · subst hje
        simpa using hm
      · rw [List.getElem?_eq_none (by simp; omega)]
        simp

/-! ## One loop iteration -/

theorem rowsNamed_mid (k : String) (A B : List LocalClusterPolicyEvent)
    (x : LocalClusterPolicyEvent) :
    rowsNamed k (A ++ x :: B) =
      rowsNamed k A ++ (if x.EventName = k then [x] else []) ++ rowsNamed k B := by
  by_cases h : x.EventName = k <;> simp [rowsNamed, List.filter_cons, h]

theorem historyStep_eventMap (r c : String) (s : LoopState) (e : String × ComplianceHistory) :
    (historyStep r c s e).eventMap = deleteKey s.eventMap e.2.EventName := rfl

/-- The effect of one loop iteration on the rows, name by name: the rows of every
other name are untouched, and the rows of the entry's name get a new last row
(appended, or written over the previous last row) or stay as they are. -/
theorem historyStep_spec (r c : String) (s : LoopState) (pc : String) (ev : ComplianceHistory)
    (hinv : PtrInv s) :
    PtrInv (historyStep r c s (pc, ev)) ∧
    (∀ k, k ≠ ev.EventName →
      rowsNamed k (historyStep r c s (pc, ev)).events = rowsNamed k s.events) ∧
    ((s.eventMap ev.EventName = none ∧ (historyStep r c s (pc, ev)).modified = true ∧
        rowsNamed ev.EventName (historyStep r c s (pc, ev)).events =
          rowsNamed ev.EventName s.events ++ [addedRow ev pc r c]) ∨
     (∃ old, s.eventMap ev.EventName ≠ none ∧ storedEvent s.events ev.EventName = some old ∧
        old.CreatedAt.Equal ev.LastTimestamp = false ∧
        (historyStep r c s (pc, ev)).modified = true ∧
        rowsNamed ev.EventName (historyStep r c s (pc, ev)).events =
          (rowsNamed ev.EventName s.events).dropLast ++ [updatedRow old ev pc]) ∨
     (∃ old, s.eventMap ev.EventName ≠ none ∧ storedEvent s.events ev.EventName = some old ∧
        old.CreatedAt.Equal ev.LastTimestamp = true ∧
        (historyStep r c s (pc, ev)).modified = s.modified ∧
        (historyStep r c s (pc, ev)).events = s.events)) := by
  cases hm : s.eventMap ev.EventName with
  | none =>
    have hev : (historyStep r c s (pc, ev)).events = s.events ++ [addedRow ev pc r c] := by
      simp [historyStep, updatePolicyEvents, hm, addedRow]
    have hmod : (historyStep r c s (pc, ev)).modified = true := by
      simp [historyStep, updatePolicyEvents, hm]
    refine ⟨?_, ?_, Or.inl ⟨rfl, hmod, ?_⟩⟩
    · intro n i hn
      rw [historyStep_eventMap] at hn
      simp only [deleteKey] at hn
      by_cases hne : n = ev.EventName
      · simp [hne] at hn
      · simp only [hne, if_false] at hn
        rw [hev, List.map_append]
        exact namesLast_append _ _ _ _ (hinv n i hn) (fun h => hne h.symm)
    · intro k hk
      rw [hev, rowsNamed_append]
      have : rowsNamed k [addedRow ev pc r c] = [] := by
        apply rowsNamed_eq_nil
        intro x hx
        simp at hx
        subst hx
        exact fun h => hk h.symm
      simp [this]
    · rw [hev, rowsNamed_append]
      simp [rowsNamed, addedRow]
  | some i =>
    have hnl := hinv _ _ hm
    obtain ⟨old, hold⟩ : ∃ old, s.events[i]? = some old := by
      have h1 := hnl.1
      rw [List.getElem?_map] at h1
      cases hx : s.events[i]? with
      | none => simp [hx] at h1
      | some x => exact ⟨x, rfl⟩
    obtain ⟨A, B, hAB, hlen⟩ := getElem?_split _ _ _ hold
    subst hlen
    rw [hAB] at hnl
    obtain ⟨hname, hB⟩ := namesLast_split A B old ev.EventName hnl
    have hBn : rowsNamed ev.EventName B = [] := rowsNamed_eq_nil _ _ hB
    have hstored : storedEvent s.events ev.EventName = some old := by
      rw [storedEvent, hAB, rowsNamed_mid, hBn]
      simp [hname]
    by_cases heq : old.CreatedAt.Equal ev.LastTimestamp = true
    · have hev : (historyStep r c s (pc, ev)).events = s.events := by
        simp [historyStep, updatePolicyEvents, hm, hold, heq]
      have hmod : (historyStep r c s (pc, ev)).modified = s.modified := by
        simp [historyStep, updatePolicyEvents, hm, hold, heq]
      refine ⟨?_, ?_, Or.inr (Or.inr ⟨old, by simp, hstored, heq, hmod, hev⟩)⟩
      · intro n j hn
        rw [historyStep_eventMap] at hn
        simp only [deleteKey] at hn
        by_cases hne : n = ev.EventName
        · simp [hne] at hn
        · simp only [hne, if_false] at hn
          rw [hev]
          exact hinv n j hn
      · intro k _
        rw [hev]
    · have heq2 : old.CreatedAt.Equal ev.LastTimestamp = false := by simpa using heq
      have hev : (historyStep r c s (pc, ev)).events = A ++ updatedRow old ev pc :: B := by
        have : (historyStep r c s (pc, ev)).events =
            s.events.set A.length (updatedRow old ev pc) := by
          simp [historyStep, updatePolicyEvents, hm, hold, heq2, updatedRow]
        rw [this, hAB, set_split]
      have hmod : (historyStep r c s (pc, ev)).modified = true := by
        simp [historyStep, updatePolicyEvents, hm, hold, heq2]
      have hnames : (historyStep r c s (pc, ev)).events.map (fun x => x.EventName) =
          s.events.map (fun x => x.EventName) := by
        rw [hev, hAB]
        simp [updatedRow]
      have hun : (updatedRow old ev pc).EventName = ev.EventName := by simp [updatedRow, hname]
      refine ⟨?_, ?_, Or.inr (Or.inl ⟨old, by simp, hstored, heq2, hmod, ?_⟩)⟩
      · intro n j hn
        rw [historyStep_eventMap] at hn
        simp only [deleteKey] at hn
        by_cases hne : n = ev.EventName
        · simp [hne] at hn
        · simp only [hne, if_false] at hn
          rw [hnames]
          exact hinv n j hn
      · intro k hk
        have h1 : ¬ old.EventName = k := fun h => hk (h.symm.trans hname)
        have h2 : ¬ (updatedRow old ev pc).EventName = k := fun h => hk (h.symm.trans hun)
        rw [hev, hAB, rowsNamed_mid, rowsNamed_mid]
        simp [h1, h2]
      · rw [hev, hAB, rowsNamed_mid, rowsNamed_mid, hBn]
        simp [hname, hun]

/-! ## The whole pass over the history -/

theorem initState_ptrInv (stored : List LocalClusterPolicyEvent) : PtrInv (initState stored) := by
  intro n i h
  exact buildEventMap_namesLast stored n i h

theorem runEntries_cons (r c : String) (e : String × ComplianceHistory)
    (es : List (String × ComplianceHistory)) (s : LoopState) :
    runEntries r c (e :: es) s = runEntries r c es (historyStep r c s e) := rfl

theorem runEntries_ptrInv (r c : String) (es : List (String × ComplianceHistory))
    (s : LoopState) (hinv : PtrInv s) : PtrInv (runEntries r c es s) := by
  induction es generalizing s with
  | nil => exact hinv
  | cons e rest ih =>
    rw [runEntries_cons]
    exact ih _ (historyStep_spec r c s e.1 e.2 hinv).1

theorem runEntries_frame (r c : String) (es : List (String × ComplianceHistory))
    (s : LoopState) (hinv : PtrInv s) (n : String) (hn : n ∉ entryNames es) :
    rowsNamed n (runEntries r c es s).events = rowsNamed n s.events := by
  induction es generalizing s with
  | nil => rfl
  | cons e rest ih =>
    rw [runEntries_cons]
    have hs := historyStep_spec r c s e.1 e.2 hinv
    simp only [entryNames, List.map_cons, List.mem_cons, not_or] at hn
    rw [ih _ hs.1 hn.2]
    exact hs.2.1 n hn.1

theorem runEntries_modified (r c : String) (es : List (String × ComplianceHistory))
    (s : LoopState) (hinv : PtrInv s) (hm : s.modified = true) :
    (runEntries r c es s).modified = true := by
  induction es generalizing s with
  | nil => exact hm
  | cons e rest ih =>
    rw [runEntries_cons]
    have hs := historyStep_spec r c s e.1 e.2 hinv
    apply ih _ hs.1
    rcases hs.2.2 with h | ⟨_, h⟩ | ⟨_, h⟩
    · exact h.2.1
    · exact h.2.2.2.1
    · rw [h.2.2.2.1]; exact hm

theorem runEntries_mem (r c : String) (es : List (String × ComplianceHistory))
    (s : LoopState) (hinv : PtrInv s) (n : String) (hmap : s.eventMap n = none)
    (x : LocalClusterPolicyEvent) (hx : x ∈ rowsNamed n s.events) :
    x ∈ rowsNamed n (runEntries r c es s).events := by
  induction es generalizing s with
  | nil => exact hx
  | cons e rest ih =>
    rw [runEntries_cons]
    have hs := historyStep_spec r c s e.1 e.2 hinv
    apply ih _ hs.1
    · rw [historyStep_eventMap]
      simp [deleteKey, hmap]
    · by_cases hne : n = e.2.EventName
      · subst hne
        rcases hs.2.2 with h | ⟨_, h⟩ | ⟨_, h⟩
        · rw [h.2.2]
          exact List.mem_append_left _ hx
        · exact absurd hmap h.1
        · exact absurd hmap h.1
      · rw [hs.2.1 n hne]
        exact hx

theorem rowsNamed_shrink (s : LoopState) (n : String) (h : s.eventMap n = none) :
    rowsNamed n (shrink s) = rowsNamed n s.events := by
  simp only [rowsNamed, shrink, List.filter_filter]
  apply List.filter_congr
  intro x _
  by_cases hx : x.EventName = n
  · simp [hx, h]
  · simp [hx]

/-! ## UpdateObject in terms of the pass -/

theorem UpdateObject_resolved (env : Env) (b : ClusterPolicyHistoryEventBundle) (p : Policy)
    (details : List DetailsPerTemplate) (rootName clusterName clusterId : String)
    (rootPolicy : Policy)
    (hd : p.Details = some details)
    (hr : p.Labels env.PolicyEventRootPolicyNameLabelKey = some rootName)
    (hrp : env.GetRootPolicy rootName = .ok rootPolicy)
    (hc : p.Labels env.PolicyEventClusterNameLabelKey = some clusterName)
    (hci : env.GetClusterId clusterName = .ok clusterId) :
    UpdateObject env b (.policy p) = updateResolved b p.UID details rootPolicy.UID clusterId := by
  simp [UpdateObject, hd, hr, hrp, hc, hci]

theorem updateResolved_eq (b : ClusterPolicyHistoryEventBundle) (uid : String)
    (details : List DetailsPerTemplate) (root cid : String) :
    updateResolved b uid details root cid =
      if (finalState b uid details root cid).modified then
        { b with
          PolicyStatusEvents :=
            setEvents b.PolicyStatusEvents uid (shrink (finalState b uid details root cid))
          BundleVersion := { b.BundleVersion with
            Generation := wrapUint64 (b.BundleVersion.Generation + 1) } }
      else b := by
  simp only [updateResolved, finalState, detailsLoop_eq_runEntries, initState, eventsOf]

theorem eventsOf_updateResolved (b : ClusterPolicyHistoryEventBundle) (uid : String)
    (details : List DetailsPerTemplate) (root cid : String) :
    eventsOf (updateResolved b uid details root cid) uid =
      if (finalState b uid details root cid).modified then
        shrink (finalState b uid details root cid)
      else eventsOf b uid := by
  rw [updateResolved_eq]
  by_cases h : (finalState b uid details root cid).modified = true
  · simp [h, eventsOf, setEvents]
  · simp [h]

theorem storedEvent_eq_none (L : List LocalClusterPolicyEvent) (n : String) :
    storedEvent L n = none ↔ buildEventMap L n = none := by
  rw [buildEventMap_eq_none, storedEvent, List.getLast?_eq_none_iff]
  simp only [rowsNamed, List.filter_eq_nil_iff]
  constructor
  · intro h r hr; simpa using h r hr
  · intro h r hr; simpa using h r hr

theorem storedEvent_name (L : List LocalClusterPolicyEvent) (n : String)
    (x : LocalClusterPolicyEvent) (h : storedEvent L n = some x) : x.EventName = n := by
  have hm : x ∈ rowsNamed n L := List.mem_of_getLast?_eq_some h
  simpa [rowsNamed] using (List.mem_filter.1 hm).2

/-- The state in which the loop reaches an entry whose name did not occur before
it in the history. -/
theorem runEntries_before (r c : String) (stored : List LocalClusterPolicyEvent)
    (pre : List (String × ComplianceHistory)) (n : String) (hn : n ∉ entryNames pre) :
    PtrInv (runEntries r c pre (initState stored)) ∧
    (runEntries r c pre (initState stored)).eventMap n = buildEventMap stored n ∧
    storedEvent (runEntries r c pre (initState stored)).events n = storedEvent stored n := by
  refine ⟨runEntries_ptrInv _ _ _ _ (initState_ptrInv stored), ?_, ?_⟩
  · rw [runEntries_eventMap]
    simp [hn, initState]
  · unfold storedEvent
    rw [runEntries_frame _ _ _ _ (initState_ptrInv stored) n hn]
    rfl

/-! ## A history entry inside the pass -/

theorem finalState_split (b : ClusterPolicyHistoryEventBundle) (uid : String)
    (details : List DetailsPerTemplate) (root cid : String)
    (pre post : List (String × ComplianceHistory)) (c : String) (ev : ComplianceHistory)
    (hflat : flatHistory details = pre ++ (c, ev) :: post) :
    finalState b uid details root cid =
      runEntries root cid post
        (historyStep root cid (runEntries root cid pre (initState (eventsOf b uid))) (c, ev)) := by
  rw [finalState, hflat, runEntries_append, runEntries_cons]

theorem finalState_eventMap_none (b : ClusterPolicyHistoryEventBundle) (uid : String)
    (details : List DetailsPerTemplate) (root cid : String)
    (pre post : List (String × ComplianceHistory)) (c : String) (ev : ComplianceHistory)
    (hflat : flatHistory details = pre ++ (c, ev) :: post) :
    (finalState b uid details root cid).eventMap ev.EventName = none := by
  rw [finalState, runEntries_eventMap, hflat]
  simp [entryNames]

/-- The rows of a name after the call, when the name was deleted from the map. -/
theorem rowsNamed_after (b : ClusterPolicyHistoryEventBundle) (uid : String)
    (details : List DetailsPerTemplate) (root cid n : String)
    (hmap : (finalState b uid details root cid).eventMap n = none) :
    rowsNamed n (eventsOf (updateResolved b uid details root cid) uid) =
      if (finalState b uid details root cid).modified then
        rowsNamed n (finalState b uid details root cid).events
      else rowsNamed n (eventsOf b uid) := by
  rw [eventsOf_updateResolved]
  by_cases h : (finalState b uid details root cid).modified = true
  · simp [h, rowsNamed_shrink _ _ hmap]
  · simp [h]

theorem update_changed_entry (b : ClusterPolicyHistoryEventBundle) (uid : String)
    (details : List DetailsPerTemplate) (root cid : String)
    (pre post : List (String × ComplianceHistory)) (c : String) (ev : ComplianceHistory)
    (old : LocalClusterPolicyEvent)
    (hflat : flatHistory details = pre ++ (c, ev) :: post)
    (hpre : ev.EventName ∉ entryNames pre) (hpost : ev.EventName ∉ entryNames post)
    (hold : storedEvent (eventsOf b uid) ev.EventName = some old)
    (hne : old.CreatedAt.Equal ev.LastTimestamp = false) :
    storedEvent (eventsOf (updateResolved b uid details root cid) uid) ev.EventName =
      some (updatedRow old ev c) := by
  have hb := runEntries_before root cid (eventsOf b uid) pre ev.EventName hpre
  have hs := historyStep_spec root cid _ c ev hb.1
  have hsplit := finalState_split b uid details root cid pre post c ev hflat
  have hmap := finalState_eventMap_none b uid details root cid pre post c ev hflat
  rcases hs.2.2 with h | ⟨old1, h⟩ | ⟨old1, h⟩
  · rw [hb.2.1, ← storedEvent_eq_none, hold] at h
    exact absurd h.1 (by simp)
  · have ho : old1 = old := by
      have := h.2.1
      rw [hb.2.2, hold] at this
      exact (Option.some.inj this).symm
    subst ho
    have hmod : (finalState b uid details root cid).modified = true := by
      rw [hsplit]
      exact runEntries_modified _ _ _ _ hs.1 h.2.2.2.1
    unfold storedEvent
    rw [rowsNamed_after _ _ _ _ _ _ hmap, hmod, hsplit]
    simp only [if_true]
    rw [runEntries_frame _ _ _ _ hs.1 _ hpost, h.2.2.2.2]
    simp
  · have := h.2.1
    rw [hb.2.2, hold] at this
    have ho : old1 = old := (Option.some.inj this).symm
    subst ho
    rw [hne] at h
    exact absurd h.2.2.1 (by simp)

theorem update_same_entry (b : ClusterPolicyHistoryEventBundle) (uid : String)
    (details : List DetailsPerTemplate) (root cid : String)
    (pre post : List (String × ComplianceHistory)) (c : String) (ev : ComplianceHistory)
    (old : LocalClusterPolicyEvent)
    (hflat : flatHistory details = pre ++ (c, ev) :: post)
    (hpre : ev.EventName ∉ entryNames pre) (hpost : ev.EventName ∉ entryNames post)
    (hold : storedEvent (eventsOf b uid) ev.EventName = some old)
    (heq : old.CreatedAt.Equal ev.LastTimestamp = true) :
    storedEvent (eventsOf (updateResolved b uid details root cid) uid) ev.EventName =
      some old := by
  have hb := runEntries_before root cid (eventsOf b uid) pre ev.EventName hpre
  have hs := historyStep_spec root cid _ c ev hb.1
  have hsplit := finalState_split b uid details root cid pre post c ev hflat
  have hmap := finalState_eventMap_none b uid details root cid pre post c ev hflat
  rcases hs.2.2 with h | ⟨old1, h⟩ | ⟨old1, h⟩
  · rw [hb.2.1, ← storedEvent_eq_none, hold] at h
    exact absurd h.1 (by simp)
  · have := h.2.1
    rw [hb.2.2, hold] at this
    have ho : old1 = old := (Option.some.inj this).symm
    subst ho
    rw [heq] at h
    exact absurd h.2.2.1 (by simp)
  · have hrows : rowsNamed ev.EventName (finalState b uid details root cid).events =
        rowsNamed ev.EventName (eventsOf b uid) := by
      rw [hsplit, runEntries_frame _ _ _ _ hs.1 _ hpost, h.2.2.2.2,
        runEntries_frame _ _ _ _ (initState_ptrInv _) _ hpre]
      rfl
    have : rowsNamed ev.EventName (eventsOf (updateResolved b uid details root cid) uid) =
        rowsNamed ev.EventName (eventsOf b uid) := by
      rw [rowsNamed_after _ _ _ _ _ _ hmap, hrows]
      simp
    unfold storedEvent at hold ⊢
    rw [this, hold]

theorem update_entry_row (b : ClusterPolicyHistoryEventBundle) (uid : String)
    (details : List DetailsPerTemplate) (root cid : String)
    (pre post : List (String × ComplianceHistory)) (c : String) (ev : ComplianceHistory)
    (hflat : flatHistory details = pre ++ (c, ev) :: post)
    (hact : ev.EventName ∈ entryNames pre ∨
      storedEvent (eventsOf b uid) ev.EventName = none ∨
      ∃ old, storedEvent (eventsOf b uid) ev.EventName = some old ∧
        old.CreatedAt.Equal ev.LastTimestamp = false) :
    ∃ r ∈ eventsOf (updateResolved b uid details root cid) uid,
      r.EventName = ev.EventName ∧ r.Message = ev.Message ∧
      r.CreatedAt = ev.LastTimestamp ∧ r.Compliance = deriveCompliance ev.Message c := by
  have hinv1 : PtrInv (runEntries root cid pre (initState (eventsOf b uid))) :=
    runEntries_ptrInv _ _ _ _ (initState_ptrInv _)
  have hs := historyStep_spec root cid _ c ev hinv1
  have hsplit := finalState_split b uid details root cid pre post c ev hflat
  have hmap := finalState_eventMap_none b uid details root cid pre post c ev hflat
  have hmap2 : (historyStep root cid (runEntries root cid pre (initState (eventsOf b uid)))
      (c, ev)).eventMap ev.EventName = none := by
    rw [historyStep_eventMap]; simp [deleteKey]
  -- a row written by this iteration survives to the stored slice
  have key : ∀ x : LocalClusterPolicyEvent,
      (historyStep root cid (runEntries root cid pre (initState (eventsOf b uid)))
        (c, ev)).modified = true →
      x ∈ rowsNamed ev.EventName (historyStep root cid
        (runEntries root cid pre (initState (eventsOf b uid))) (c, ev)).events →
      x ∈ eventsOf (updateResolved b uid details root cid) uid := by
    intro x hm hx
    have hmod : (finalState b uid details root cid).modified = true := by
      rw [hsplit]
      exact runEntries_modified _ _ _ _ hs.1 hm
    have h1 : x ∈ rowsNamed ev.EventName (finalState b uid details root cid).events := by
      rw [hsplit]
      exact runEntries_mem _ _ _ _ hs.1 _ hmap2 x hx
    have h2 : x ∈ rowsNamed ev.EventName
        (eventsOf (updateResolved b uid details root cid) uid) := by
      rw [rowsNamed_after _ _ _ _ _ _ hmap, hmod]
      exact h1
    exact (List.mem_filter.1 h2).1
  rcases hs.2.2 with h | ⟨old1, h⟩ | ⟨old1, h⟩
  · refine ⟨addedRow ev c root cid, key _ h.2.1 ?_, rfl, rfl, rfl, rfl⟩
    rw [h.2.2]
    simp
  · have hn1 := storedEvent_name _ _ _ h.2.1
    refine ⟨updatedRow old1 ev c, key _ h.2.2.2.1 ?_, hn1, rfl, rfl, rfl⟩
    rw [h.2.2.2.2]
    simp
  · exfalso
    by_cases hp : ev.EventName ∈ entryNames pre
    · apply h.1
      rw [runEntries_eventMap]
      simp [hp]
    · have hb := runEntries_before root cid (eventsOf b uid) pre ev.EventName hp
      have h21 := h.2.1
      rw [hb.2.2] at h21
      rcases hact with h0 | h0 | ⟨old, h0, h0e⟩
      · exact hp h0
      · rw [h0] at h21
        cases h21
      · rw [h0] at h21
        have ho : old = old1 := Option.some.inj h21
        subst ho
        rw [h0e] at h
        exact absurd h.2.2.1 (by simp)

/-! ## Bridging lemmas for the statements -/

theorem flatHistory_append (D1 D2 : List DetailsPerTemplate) :
    flatHistory (D1 ++ D2) = flatHistory D1 ++ flatHistory D2 := by
  induction D1 with
  | nil => rfl
  | cons d ds ih => simp [flatHistory, ih]

theorem flatHistory_detail (details D1 D2 : List DetailsPerTemplate) (d : DetailsPerTemplate)
    (H1 H2 : List ComplianceHistory) (ev : ComplianceHistory)
    (hdet : details = D1 ++ d :: D2) (hhist : d.History = some (H1 ++ ev :: H2)) :
    flatHistory details =
      (flatHistory D1 ++ H1.map (fun e => (d.ComplianceState, e))) ++
        (d.ComplianceState, ev) ::
          (H2.map (fun e => (d.ComplianceState, e)) ++ flatHistory D2) := by
  subst hdet
  rw [flatHistory_append]
  simp [flatHistory, hhist]

theorem not_mem_of_count_one (pre post : List (String × ComplianceHistory)) (c : String)
    (ev : ComplianceHistory)
    (h : (entryNames (pre ++ (c, ev) :: post)).count ev.EventName = 1) :
    ev.EventName ∉ entryNames pre ∧ ev.EventName ∉ entryNames post := by
  simp only [entryNames, List.map_append, List.map_cons, List.count_append,
    List.count_cons_self] at h
  constructor
  · intro hm
    have := List.count_pos_iff.2 hm
    simp only [entryNames] at this
    omega
  · intro hm
    have := List.count_pos_iff.2 hm
    simp only [entryNames] at this
    omega

/-- A call on a policy either returns the bundle as it is or reaches the update proper. -/
theorem UpdateObject_cases (env : Env) (b : ClusterPolicyHistoryEventBundle) (p : Policy) :
    UpdateObject env b (.policy p) = b ∨
    ∃ details root cid, UpdateObject env b (.policy p) = updateResolved b p.UID details root cid := by
  simp only [UpdateObject]
  split
  · exact Or.inl rfl
  split
  · exact Or.inl rfl
  split
  · exact Or.inl rfl
  split
  · exact Or.inl rfl
  split
  · exact Or.inl rfl
  exact Or.inr ⟨_, _, _, rfl⟩

/-! ## The regular expression of ParseCompliance -/

theorem isWordChar_range (c : Char) (h : isWordChar c = true) : 48 ≤ c.toNat ∧ c.toNat ≤ 122 := by
  simp only [isWordChar, Char.isAlphanum, Char.isAlpha, Char.isUpper, Char.isLower, Char.isDigit,
    Bool.or_eq_true, Bool.and_eq_true, decide_eq_true_eq, beq_iff_eq] at h
  simp only [Char.toNat]
  rcases h with ((⟨h1, h2⟩ | ⟨h1, h2⟩) | ⟨h1, h2⟩) | h
  · have a : 65 ≤ c.val.toNat := h1
    have b : c.val.toNat ≤ 90 := h2
    omega
  · have a : 97 ≤ c.val.toNat := h1
    have b : c.val.toNat ≤ 122 := h2
    omega
  · have a : 48 ≤ c.val.toNat := h1
    have b : c.val.toNat ≤ 57 := h2
    omega
  · subst h; decide

theorem isSpace_range (c : Char) (h : isSpace c = true) : c.toNat ≤ 32 ∨ 133 ≤ c.toNat := by
  simp only [isSpace, Bool.or_eq_true, Bool.and_eq_true, decide_eq_true_eq, beq_iff_eq] at h
  omega

theorem isWordChar_not_space (c : Char) (h : isWordChar c = true) : isSpace c = false := by
  have h1 := isWordChar_range c h
  cases hs : isSpace c with
  | false => rfl
  | true =>
    have h2 := isSpace_range c hs
    omega

theorem isWordChar_semicolon : isWordChar ';' = false := by decide

theorem takeWhile_run (p : Char → Bool) (w rest : List Char) (x : Char)
    (hw : ∀ c ∈ w, p c = true) (hx : p x = false) :
    (w ++ x :: rest).takeWhile p = w ∧ (w ++ x :: rest).dropWhile p = x :: rest := by
  induction w with
  | nil => simp [List.takeWhile, List.dropWhile, hx]
  | cons a as ih =>
    have ha : p a = true := hw a (by simp)
    have := ih (fun c hc => hw c (by simp [hc]))
    simp [List.takeWhile, List.dropWhile, ha, this.1, this.2]

/-- A match anchored at the head: a non-empty run of word characters followed by `;`. -/
theorem matchAt_eq_some (cs w : List Char) :
    matchAt cs = some w ↔
      ∃ rest, cs = w ++ ';' :: rest ∧ w ≠ [] ∧ ∀ c ∈ w, isWordChar c = true := by
  constructor
  · intro h
    unfold matchAt at h
    split at h
    · rename_i hc
      have hw : cs.takeWhile isWordChar = w := Option.some.inj h
      obtain ⟨hne, hhead⟩ := hc
      have hsplit := List.takeWhile_append_dropWhile isWordChar cs
      cases hdw : cs.dropWhile isWordChar with
      | nil => simp [hdw] at hhead
      | cons y ys =>
        rw [hdw] at hhead hsplit
        simp at hhead
        subst hhead
        refine ⟨ys, ?_, ?_, ?_⟩
        · rw [← hw]; exact hsplit.symm
        · rw [← hw]; exact hne
        · intro c hc
          rw [← hw] at hc
          exact List.mem_takeWhile_imp hc
    · cases h
  · rintro ⟨rest, rfl, hne, hw⟩
    have := takeWhile_run isWordChar w rest ';' hw isWordChar_semicolon
    unfold matchAt
    rw [this.1, this.2]
    simp [hne]

theorem matchAt_none_head (c : Char) (cs : List Char) (h : matchAt (c :: ';' :: cs) = none) :
    isWordChar c = false := by
  cases hc : isWordChar c with
  | false => rfl
  | true =>
    have : matchAt (c :: ';' :: cs) = some [c] :=
      (matchAt_eq_some _ _).2 ⟨cs, rfl, by simp, by simpa using hc⟩
    rw [this] at h
    cases h

theorem noHit_cons (c : Char) (cs : List Char) (hm : matchAt (c :: cs) = none)
    (h : NoHit cs) : NoHit (c :: cs) := by
  intro a x b hab
  cases a with
  | nil =>
    simp at hab
    obtain ⟨rfl, rfl⟩ := hab
    exact matchAt_none_head _ _ hm
  | cons y ys =>
    simp at hab
    exact h ys x b hab.2

/-- The leftmost match of `(\w+);`: either there is no word character directly followed
by `;` and there is no match, or the input splits as `pre ++ w ++ ';' :: post` where `w`
is a maximal run of word characters, no `;` inside `pre` directly follows a word character,
and the capture group is `w`. -/
theorem findSubmatch_spec (cs : List Char) :
    (findSubmatch cs = none ∧ NoHit cs) ∨
    ∃ pre w post, cs = pre ++ w ++ ';' :: post ∧ w ≠ [] ∧
      (∀ c ∈ w, isWordChar c = true) ∧
      (∀ c, pre.getLast? = some c → isWordChar c = false) ∧
      NoHit pre ∧ findSubmatch cs = some w := by
  induction cs with
  | nil =>
    left
    refine ⟨rfl, ?_⟩
    intro a c b h
    simp at h
  | cons x xs ih =>
    cases hm : matchAt (x :: xs) with
    | some w =>
      right
      obtain ⟨rest, hcs, hne, hw⟩ := (matchAt_eq_some _ _).1 hm
      refine ⟨[], w, rest, by simpa using hcs, hne, hw, by simp, ?_, by simp [findSubmatch, hm]⟩
      intro a c b h
      simp at h
    | none =>
      have hfs : findSubmatch (x :: xs) = findSubmatch xs := by simp [findSubmatch, hm]
      rcases ih with ⟨h1, h2⟩ | ⟨pre, w, post, hcs, hne, hw, hlast, hno, hres⟩
      · left
        exact ⟨by rw [hfs, h1], noHit_cons x xs hm h2⟩
      · right
        refine ⟨x :: pre, w, post, by simp [hcs], hne, hw, ?_, ?_, by rw [hfs, hres]⟩
        · intro c hc
          cases pre with
          | nil =>
            simp at hc
            subst hc
            cases hx : isWordChar x with
            | false => rfl
            | true =>
              have : matchAt (x :: xs) = some (x :: w) := by
                apply (matchAt_eq_some _ _).2
                refine ⟨post, by simp [hcs], by simp, ?_⟩
                intro c hc
                rcases List.mem_cons.1 hc with rfl | hc
                · exact hx
                · exact hw c hc
              rw [this] at hm
              cases hm
          | cons y ys =>
            apply hlast
            simpa [List.getLast?_cons_cons] using hc
        · intro a c b hab
          cases a with
          | nil =>
            simp at hab
            obtain ⟨rfl, hpre⟩ := hab
            rw [hpre] at hcs
            rw [hcs] at hm
            exact matchAt_none_head _ _ (by simpa using hm)
          | cons y ys =>
            simp at hab
            exact hno ys c b hab.2

theorem dropWhile_id (p : Char → Bool) (l : List Char) (h : ∀ c, l.head? = some c → p c = false) :
    l.dropWhile p = l := by
  cases l with
  | nil => rfl
  | cons a as => simp [List.dropWhile, h a (by simp)]

theorem trimSpaceChars_word (w : List Char) (hw : ∀ c ∈ w, isWordChar c = true) :
    trimSpaceChars w = w := by
  unfold trimSpaceChars
  rw [dropWhile_id isSpace w, dropWhile_id isSpace w.reverse, List.reverse_reverse]
  · intro c hc
    have : c ∈ w := by
      have := List.mem_of_mem_head? hc
      simpa using this
    exact isWordChar_not_space c (hw c this)
  · intro c hc
    exact isWordChar_not_space c (hw c (List.mem_of_mem_head? hc))

theorem ParseCompliance_of_none (msg : String) (h : findSubmatch msg.toList = none) :
    ParseCompliance msg = "" := by
  unfold ParseCompliance
  rw [h]

theorem ParseCompliance_of_some (msg : String) (w : List Char)
    (h : findSubmatch msg.toList = some w) (hw : ∀ c ∈ w, isWordChar c = true) :
    ParseCompliance msg = String.mk w := by
  unfold ParseCompliance
  rw [h]
  show String.mk (trimSpaceChars w) = String.mk w
  rw [trimSpaceChars_word w hw]

/-! ## Properties of the specification -/

/-- Claim C1 (amended): for every bundle state and every policy object whose lookups
succeed, a history entry whose event name occurs exactly once in the object's incoming
history and whose name is stored for the object (`old` is the stored row of that name,
the last one should several rows share it) with a `CreatedAt` that is not `Equal` to the
entry's `LastTimestamp` makes `UpdateObject` add 1 to that row's `Count` in Go `int`
arithmetic and overwrite its `Message`, `Compliance` and `CreatedAt` with the entry's
message, the derived compliance label and the entry's timestamp. The new `Count` is
exactly `old.Count + 1` for every stored `Count` below the largest `int`; from the
largest `int` the addition wraps around to the smallest. -/
theorem updateObject_timestamp_change (env : Env) (b : ClusterPolicyHistoryEventBundle)
    (p : Policy) (details D1 D2 : List DetailsPerTemplate) (d : DetailsPerTemplate)
    (H1 H2 : List ComplianceHistory) (ev : ComplianceHistory)
    (rootName clusterName clusterId : String) (rootPolicy : Policy)
    (old : LocalClusterPolicyEvent)
    (hd : p.Details = some details)
    (hr : p.Labels env.PolicyEventRootPolicyNameLabelKey = some rootName)
    (hrp : env.GetRootPolicy rootName = .ok rootPolicy)
    (hc : p.Labels env.PolicyEventClusterNameLabelKey = some clusterName)
    (hci : env.GetClusterId clusterName = .ok clusterId)
    (hdet : details = D1 ++ d :: D2) (hhist : d.History = some (H1 ++ ev :: H2))
    (honce : (entryNames (flatHistory details)).count ev.EventName = 1)
    (hold : storedEvent (eventsOf b p.UID) ev.EventName = some old)
    (hne : old.CreatedAt.Equal ev.LastTimestamp = false) :
    storedEvent (eventsOf (UpdateObject env b (.policy p)) p.UID) ev.EventName =
      some { old with
        Message := ev.Message
        Count := wrapInt64 (old.Count + 1)
        CreatedAt := ev.LastTimestamp
        Compliance := deriveCompliance ev.Message d.ComplianceState } ∧
    (-9223372036854775808 ≤ old.Count → old.Count < 9223372036854775807 →
      wrapInt64 (old.Count + 1) = old.Count + 1) ∧
    (old.Count = 9223372036854775807 → wrapInt64 (old.Count + 1) = -9223372036854775808) := by
  have hflat := flatHistory_detail details D1 D2 d H1 H2 ev hdet hhist
  rw [hflat] at honce
  obtain ⟨hpre, hpost⟩ := not_mem_of_count_one _ _ _ _ honce
  rw [UpdateObject_resolved env b p details rootName clusterName clusterId rootPolicy
    hd hr hrp hc hci]
  refine ⟨update_changed_entry b p.UID details rootPolicy.UID clusterId _ _ _ ev old hflat
    hpre hpost hold hne, fun h1 h2 => ?_, fun h => ?_⟩
  · unfold wrapInt64; omega
  · unfold wrapInt64; omega

/-- Claim C2 (amended): for every bundle state and every policy object whose lookups
succeed, a history entry whose event name occurs exactly once in the object's incoming
history and whose name is stored for the object with a `CreatedAt` that is `Equal` to the
entry's `LastTimestamp` is a no-op for that stored row: its `Count`, `Compliance`,
`Message` and `CreatedAt` (the whole row) are unchanged, whatever the incoming message. -/
theorem updateObject_same_timestamp (env : Env) (b : ClusterPolicyHistoryEventBundle)
    (p : Policy) (details D1 D2 : List DetailsPerTemplate) (d : DetailsPerTemplate)
    (H1 H2 : List ComplianceHistory) (ev : ComplianceHistory)
    (rootName clusterName clusterId : String) (rootPolicy : Policy)
    (old : LocalClusterPolicyEvent)
    (hd : p.Details = some details)
    (hr : p.Labels env.PolicyEventRootPolicyNameLabelKey = some rootName)
    (hrp : env.GetRootPolicy rootName = .ok rootPolicy)
    (hc : p.Labels env.PolicyEventClusterNameLabelKey = some clusterName)
    (hci : env.GetClusterId clusterName = .ok clusterId)
    (hdet : details = D1 ++ d :: D2) (hhist : d.History = some (H1 ++ ev :: H2))
    (honce : (entryNames (flatHistory details)).count ev.EventName = 1)
    (hold : storedEvent (eventsOf b p.UID) ev.EventName = some old)
    (heq : old.CreatedAt.Equal ev.LastTimestamp = true) :
    storedEvent (eventsOf (UpdateObject env b (.policy p)) p.UID) ev.EventName = some old := by
  have hflat := flatHistory_detail details D1 D2 d H1 H2 ev hdet hhist
  rw [hflat] at honce
  obtain ⟨hpre, hpost⟩ := not_mem_of_count_one _ _ _ _ honce
  rw [UpdateObject_resolved env b p details rootName clusterName clusterId rootPolicy
    hd hr hrp hc hci]
  exact update_same_entry b p.UID details rootPolicy.UID clusterId _ _ _ ev old hflat
    hpre hpost hold heq

/-- Claim C7: `UpdateObject` fails closed. When the object is not a policy, has nil
status details, lacks the root-policy-name or cluster-name label, or the root-policy or
cluster-id lookup returns an error, the call returns the bundle unchanged: the stored
events of every UID and the `BundleVersion` are as before, and there is no error result. -/
theorem updateObject_fails_closed (env : Env) (b : ClusterPolicyHistoryEventBundle)
    (o : Object)
    (h : (∃ uid, o = .other uid) ∨ ∃ p, o = .policy p ∧
      (p.Details = none ∨
       p.Labels env.PolicyEventRootPolicyNameLabelKey = none ∨
       p.Labels env.PolicyEventClusterNameLabelKey = none ∨
       (∃ name e, p.Labels env.PolicyEventRootPolicyNameLabelKey = some name ∧
          env.GetRootPolicy name = .error e) ∨
       (∃ name e, p.Labels env.PolicyEventClusterNameLabelKey = some name ∧
          env.GetClusterId name = .error e))) :
    UpdateObject env b o = b := by
  rcases h with ⟨uid, rfl⟩ | ⟨p, rfl, h⟩
  · rfl
  · simp only [UpdateObject]
    split
    · rfl
    split
    · rfl
    split
    · rfl
    split
    · rfl
    split
    · rfl
    exfalso
    rcases h with h | h | h | ⟨n, e, h1, h2⟩ | ⟨n, e, h1, h2⟩ <;> simp_all

/-- Claim C9: for every history entry that `UpdateObject` adds (its name is not stored
for the object, or occurred earlier in the same incoming history) or updates (its name is
stored with a `CreatedAt` that is not `Equal` to the entry's timestamp), the bundle
afterwards stores a row for the entry whose `Compliance` is the `ComplianceState` of the
status detail containing the entry when `ParseCompliance` finds no token in the entry's
message, and the token otherwise. -/
theorem updateObject_compliance (env : Env) (b : ClusterPolicyHistoryEventBundle)
    (p : Policy) (details D1 D2 : List DetailsPerTemplate) (d : DetailsPerTemplate)
    (H1 H2 : List ComplianceHistory) (ev : ComplianceHistory)
    (rootName clusterName clusterId : String) (rootPolicy : Policy)
    (hd : p.Details = some details)
    (hr : p.Labels env.PolicyEventRootPolicyNameLabelKey = some rootName)
    (hrp : env.GetRootPolicy rootName = .ok rootPolicy)
    (hc : p.Labels env.PolicyEventClusterNameLabelKey = some clusterName)
    (hci : env.GetClusterId clusterName = .ok clusterId)
    (hdet : details = D1 ++ d :: D2) (hhist : d.History = some (H1 ++ ev :: H2))
    (hact : ev.EventName ∈ entryNames (flatHistory D1) ∨
      ev.EventName ∈ H1.map (fun e => e.EventName) ∨
      storedEvent (eventsOf b p.UID) ev.EventName = none ∨
      ∃ old, storedEvent (eventsOf b p.UID) ev.EventName = some old ∧
        old.CreatedAt.Equal ev.LastTimestamp = false) :
    ∃ r ∈ eventsOf (UpdateObject env b (.policy p)) p.UID,
      r.EventName = ev.EventName ∧ r.Message = ev.Message ∧
      r.CreatedAt = ev.LastTimestamp ∧
      r.Compliance =
        if ParseCompliance ev.Message = "" then d.ComplianceState
        else ParseCompliance ev.Message := by
  have hflat := flatHistory_detail details D1 D2 d H1 H2 ev hdet hhist
  rw [UpdateObject_resolved env b p details rootName clusterName clusterId rootPolicy
    hd hr hrp hc hci]
  apply update_entry_row b p.UID details rootPolicy.UID clusterId _ _ _ ev hflat
  rcases hact with h | h | h | h
  · left
    simp only [entryNames, List.map_append, List.mem_append]
    exact Or.inl h
  · left
    simp only [entryNames, List.map_append, List.mem_append, List.map_map]
    right
    simpa [Function.comp] using h
  · exact Or.inr (Or.inl h)
  · exact Or.inr (Or.inr h)

/-- Claim C10: `DeleteObject` on a policy object removes all stored events of the
object's UID (afterwards the bundle holds no entry for it) and does not change the
bundle's `Generation` or `Incarnation`; on an object that is not a policy it changes
nothing. -/
theorem deleteObject_removes (b : ClusterPolicyHistoryEventBundle) (p : Policy) :
    (DeleteObject b (.policy p)).PolicyStatusEvents p.UID = none ∧
    (DeleteObject b (.policy p)).BundleVersion.Generation = b.BundleVersion.Generation ∧
    (DeleteObject b (.policy p)).BundleVersion.Incarnation = b.BundleVersion.Incarnation ∧
    ∀ uid, DeleteObject b (.other uid) = b := by
  refine ⟨by simp [DeleteObject], rfl, rfl, fun _ => rfl⟩

/-! ## Witnesses, counterexamples and failing inputs -/

/-- Witness for C1: the stored row `e1@10` meets the single entry `e1@20`; its counter goes
from 1 to 2 and its message, compliance and timestamp are those of the entry. -/
theorem updateObject_timestamp_change_witness :
    storedEvent (eventsOf (UpdateObject exEnv exBundle1
        (.policy (exPolicy [exEntry "e1" 20 "NonCompliant; violation"]))) "uid-1") "e1" =
      some { exRow1 with
        Message := "NonCompliant; violation"
        Count := 2
        CreatedAt := tAt 20
        Compliance := "NonCompliant" } ∧
    wrapInt64 (exRow1.Count + 1) = exRow1.Count + 1 :=
  ⟨(updateObject_timestamp_change exEnv exBundle1
    (exPolicy [exEntry "e1" 20 "NonCompliant; violation"])
    [exDetail [exEntry "e1" 20 "NonCompliant; violation"]] [] []
    (exDetail [exEntry "e1" 20 "NonCompliant; violation"]) [] []
    (exEntry "e1" 20 "NonCompliant; violation") "ns.root" "cluster1" "cluster-id"
    exRootPolicy exRow1 rfl (by decide) rfl (by decide) rfl rfl rfl (by decide) (by decide)
    (by decide)).1,
   (updateObject_timestamp_change exEnv exBundle1
    (exPolicy [exEntry "e1" 20 "NonCompliant; violation"])
    [exDetail [exEntry "e1" 20 "NonCompliant; violation"]] [] []
    (exDetail [exEntry "e1" 20 "NonCompliant; violation"]) [] []
    (exEntry "e1" 20 "NonCompliant; violation") "ns.root" "cluster1" "cluster-id"
    exRootPolicy exRow1 rfl (by decide) rfl (by decide) rfl rfl rfl (by decide) (by decide)
    (by decide)).2.1 (by decide) (by decide)⟩

/-- Counterexample to C1 as stated: `e1` is stored at instant 10 and the incoming history
lists `e1` twice, at 20 and at 30. The entry `e1@30` names a stored event with a different
timestamp, yet the stored row ends with the data of `e1@20` and the entry `e1@30` becomes a
second row with counter 1. -/
theorem updateObject_timestamp_change_counterexample :
    storedEvent (eventsOf exBundle1 "uid-1") "e1" = some exRow1 ∧
    exRow1.CreatedAt.Equal (tAt 30) = false ∧
    eventsOf (UpdateObject exEnv exBundle1 (.policy (exPolicy
        [exEntry "e1" 20 "NonCompliant; violation", exEntry "e1" 30 "Compliant; fixed"])))
        "uid-1" =
      [{ exRow1 with
          Message := "NonCompliant; violation"
          Count := 2
          CreatedAt := tAt 20
          Compliance := "NonCompliant" },
       { exRow1 with Message := "Compliant; fixed", Count := 1, CreatedAt := tAt 30 }] ∧
    storedEvent (eventsOf (UpdateObject exEnv exBundle1 (.policy (exPolicy
        [exEntry "e1" 20 "NonCompliant; violation", exEntry "e1" 30 "Compliant; fixed"])))
        "uid-1") "e1" ≠
      some { exRow1 with
        Message := "Compliant; fixed"
        Count := exRow1.Count + 1
        CreatedAt := tAt 30
        Compliance := "Compliant" } := by
  decide

/-- Witness for C2: the stored row `e1@10` meets the single entry `e1@10` with another
message and stays exactly as it was. -/
theorem updateObject_same_timestamp_witness :
    storedEvent (eventsOf (UpdateObject exEnv exBundle1
        (.policy (exPolicy [exEntry "e1" 10 "NonCompliant; another text"]))) "uid-1") "e1" =
      some exRow1 :=
  updateObject_same_timestamp exEnv exBundle1
    (exPolicy [exEntry "e1" 10 "NonCompliant; another text"])
    [exDetail [exEntry "e1" 10 "NonCompliant; another text"]] [] []
    (exDetail [exEntry "e1" 10 "NonCompliant; another text"]) [] []
    (exEntry "e1" 10 "NonCompliant; another text") "ns.root" "cluster1" "cluster-id"
    exRootPolicy exRow1 rfl (by decide) rfl (by decide) rfl rfl rfl (by decide) (by decide)
    (by decide)

/-- Counterexample to C2 as stated: `e1` is stored at instant 20 with counter 2 and the
incoming history lists `e1@30` and then `e1@20`. The entry `e1@20` names a stored event with
an equal timestamp, yet the stored row is changed by the call (counter 3, instant 30) and no
row equal to the previous one remains. -/
theorem updateObject_same_timestamp_counterexample :
    storedEvent (eventsOf exBundle2 "uid-1") "e1" = some exRow2 ∧
    exRow2.CreatedAt.Equal (tAt 20) = true ∧
    eventsOf (UpdateObject exEnv exBundle2 (.policy (exPolicy
        [exEntry "e1" 30 "NonCompliant; violation", exEntry "e1" 20 "Compliant; ok"])))
        "uid-1" =
      [{ exRow2 with
          Message := "NonCompliant; violation"
          Count := 3
          CreatedAt := tAt 30
          Compliance := "NonCompliant" },
       { exRow1 with CreatedAt := tAt 20 }] ∧
    exRow2 ∉ eventsOf (UpdateObject exEnv exBundle2 (.policy (exPolicy
        [exEntry "e1" 30 "NonCompliant; violation", exEntry "e1" 20 "Compliant; ok"])))
        "uid-1" := by
  decide

/-- Claim C3 (code defect): after `UpdateObject` with history `[e1@10, e2@20]`, a second
`UpdateObject` with history `[e1@10]` leaves `e2` stored for the object, although `e2` is
absent from the incoming history: the pruned slice is computed but, nothing having been
added or updated, it is not stored. -/
theorem updateObject_prune_only_keeps_row :
    (eventsOf exBundle12 "uid-1").map (fun r => r.EventName) = ["e1", "e2"] ∧
    (eventsOf (UpdateObject exEnv exBundle12
        (.policy (exPolicy [exEntry "e1" 10 "Compliant; ok"]))) "uid-1").map
      (fun r => r.EventName) = ["e1", "e2"] ∧
    (UpdateObject exEnv exBundle12
        (.policy (exPolicy [exEntry "e1" 10 "Compliant; ok"]))).BundleVersion =
      exBundle12.BundleVersion := by
  decide

/-- Claim C4 (code defect): the bundle stores `e1` and `e2` for the object at
`Generation` 1. An `UpdateObject` whose history lists only `e2@20`, as stored, leaves `e1`
due for pruning, and one whose history is empty leaves both events due for pruning; in
both calls `Generation` stays 1, because the increment stands under `if modified` and a
pending prune does not set `modified`. A call that also changes an entry (`e2` moved to
instant 30) prunes `e1` and moves `Generation` to 2. -/
theorem updateObject_prune_only_generation :
    (eventsOf exBundle12 "uid-1").map (fun r => r.EventName) = ["e1", "e2"] ∧
    (GetBundleVersion exBundle12).Generation = 1 ∧
    (GetBundleVersion (UpdateObject exEnv exBundle12
      (.policy (exPolicy [exEntry "e2" 20 "NonCompliant; violation"])))).Generation = 1 ∧
    (GetBundleVersion (UpdateObject exEnv exBundle12 (.policy (exPolicy [])))).Generation = 1 ∧
    (eventsOf (UpdateObject exEnv exBundle12
      (.policy (exPolicy [exEntry "e2" 30 "NonCompliant; violation"]))) "uid-1").map
        (fun r => r.EventName) = ["e2"] ∧
    (GetBundleVersion (UpdateObject exEnv exBundle12
      (.policy (exPolicy [exEntry "e2" 30 "NonCompliant; violation"])))).Generation = 2 := by
  decide

/-- Claim C5 (code defect): one `UpdateObject` on a fresh bundle with a history that
lists the event name `e1` twice stores two rows named `e1` for the object. -/
theorem updateObject_repeated_name_two_rows :
    (eventsOf (UpdateObject exEnv exBundle0 (.policy (exPolicy
        [exEntry "e1" 10 "Compliant; ok", exEntry "e1" 20 "NonCompliant; violation"])))
        "uid-1").map (fun r => (r.EventName, r.Count)) = [("e1", 1), ("e1", 1)] := by
  decide

/-- Claim C6 (code defect): repeating `UpdateObject` with the identical object, whose
history lists the entry `e1@10` twice, adds a row and increments `Generation` on every
call. -/
theorem updateObject_repeated_name_not_idempotent :
    (eventsOf (UpdateObject exEnv exBundle0 (.policy exPolicyRepeat)) "uid-1").length = 2 ∧
    (UpdateObject exEnv exBundle0 (.policy exPolicyRepeat)).BundleVersion.Generation = 1 ∧
    (eventsOf (UpdateObject exEnv (UpdateObject exEnv exBundle0 (.policy exPolicyRepeat))
        (.policy exPolicyRepeat)) "uid-1").length = 3 ∧
    (UpdateObject exEnv (UpdateObject exEnv exBundle0 (.policy exPolicyRepeat))
        (.policy exPolicyRepeat)).BundleVersion.Generation = 2 := by
  decide

/-- Witness for C7: with a failing cluster-id lookup the call returns the bundle unchanged. -/
theorem updateObject_fails_closed_witness :
    UpdateObject exEnvNoCluster exBundle1
        (.policy (exPolicy [exEntry "e1" 20 "NonCompliant; violation"])) = exBundle1 :=
  updateObject_fails_closed exEnvNoCluster exBundle1
    (.policy (exPolicy [exEntry "e1" 20 "NonCompliant; violation"]))
    (Or.inr ⟨exPolicy [exEntry "e1" 20 "NonCompliant; violation"], rfl,
      Or.inr (Or.inr (Or.inr (Or.inr
        ⟨"cluster1", "managed cluster not found", by decide, rfl⟩)))⟩)

/-- Witness for C9: an added entry whose message holds no token takes the compliance state
of its status detail. -/
theorem updateObject_compliance_witness :
    ∃ r ∈ eventsOf (UpdateObject exEnv exBundle0
        (.policy (exPolicy [exEntry "e1" 10 "template has no status"]))) "uid-1",
      r.EventName = "e1" ∧ r.Message = "template has no status" ∧ r.CreatedAt = tAt 10 ∧
      r.Compliance =
        if ParseCompliance "template has no status" = "" then "NonCompliant"
        else ParseCompliance "template has no status" :=
  updateObject_compliance exEnv exBundle0
    (exPolicy [exEntry "e1" 10 "template has no status"])
    [exDetail [exEntry "e1" 10 "template has no status"]] [] []
    (exDetail [exEntry "e1" 10 "template has no status"]) [] []
    (exEntry "e1" 10 "template has no status") "ns.root" "cluster1" "cluster-id"
    exRootPolicy rfl (by decide) rfl (by decide) rfl rfl rfl
    (Or.inr (Or.inr (Or.inl (by decide))))

/-- Counterexample to C8 as stated: for `non-compliant; violation` the whitespace-delimited
word before the `;` is `non-compliant`, while `ParseCompliance` returns `compliant`; for
`(done); next` the word is `(done)`, while `ParseCompliance` finds no token. -/
theorem parseCompliance_counterexample :
    ParseCompliance "non-compliant; violation" = "compliant" ∧
    specFirstWordBeforeSemicolon "non-compliant; violation" = "non-compliant" ∧
    ParseCompliance "(done); next" = "" ∧
    specFirstWordBeforeSemicolon "(done); next" = "(done)" ∧
    ParseCompliance "non-compliant; violation" ≠
      specFirstWordBeforeSemicolon "non-compliant; violation" := by
  decide

/-- Claim C8 (amended): for every message, either no `;` of the message directly follows
a word character (ASCII letter, digit or `_`) and `ParseCompliance` returns the empty
string, or the message splits as `pre ++ w ++ ";" ++ post` where `w` is a non-empty run
of word characters that is maximal to the left (`pre` does not end in a word character),
no `;` inside `pre` directly follows a word character, and `ParseCompliance` returns
exactly `w` (trimming does not change it). -/
theorem parseCompliance_word_run (message : String) :
    (ParseCompliance message = "" ∧ NoHit message.toList) ∨
    ∃ pre w post, message.toList = pre ++ w ++ ';' :: post ∧ w ≠ [] ∧
      (∀ c ∈ w, isWordChar c = true) ∧
      (∀ c, pre.getLast? = some c → isWordChar c = false) ∧
      NoHit pre ∧ ParseCompliance message = String.mk w := by
  rcases findSubmatch_spec message.toList with ⟨h1, h2⟩ | ⟨pre, w, post, h1, h2, h3, h4, h5, h6⟩
  · exact Or.inl ⟨ParseCompliance_of_none message h1, h2⟩
  · exact Or.inr ⟨pre, w, post, h1, h2, h3, h4, h5, ParseCompliance_of_some message w h6 h3⟩

/-! ## Sequences of calls -/

theorem applyCalls_append (b : ClusterPolicyHistoryEventBundle) (cs ds : List Call) :
    applyCalls b (cs ++ ds) = applyCalls (applyCalls b cs) ds := by
  simp [applyCalls, List.foldl_append]

theorem applyCalls_cons (b : ClusterPolicyHistoryEventBundle) (c : Call) (cs : List Call) :
    applyCalls b (c :: cs) = applyCalls (applyCall b c) cs := rfl

/-! ## Machine integers -/

theorem wrapInt64_id (x : Int) (h1 : -9223372036854775808 ≤ x) (h2 : x < 9223372036854775808) :
    wrapInt64 x = x := by
  unfold wrapInt64; omega

theorem wrapInt64_one : wrapInt64 1 = 1 := by decide

theorem wrapInt64_succ (x : Int) : wrapInt64 (wrapInt64 x + 1) = wrapInt64 (x + 1) := by
  unfold wrapInt64; omega

theorem wrapUint64_succ (n : Nat) : wrapUint64 (wrapUint64 n + 1) = wrapUint64 (n + 1) := by
  unfold wrapUint64; omega

/-! ## The version across calls -/

theorem applyCall_version (b : ClusterPolicyHistoryEventBundle) (c : Call) :
    (applyCall b c).BundleVersion.Incarnation = b.BundleVersion.Incarnation ∧
    ((applyCall b c).BundleVersion.Generation = b.BundleVersion.Generation ∨
      (applyCall b c).BundleVersion.Generation =
        wrapUint64 (b.BundleVersion.Generation + 1)) ∧
    (applyCall b c).LeafHubName = b.LeafHubName := by
  cases c with
  | delete o =>
    cases o with
    | other uid => exact ⟨rfl, Or.inl rfl, rfl⟩
    | policy p => exact ⟨rfl, Or.inl rfl, rfl⟩
  | update env o =>
    cases o with
    | other uid => exact ⟨rfl, Or.inl rfl, rfl⟩
    | policy p =>
      show (UpdateObject env b (.policy p)).BundleVersion.Incarnation = _ ∧
        ((UpdateObject env b (.policy p)).BundleVersion.Generation = _ ∨
          (UpdateObject env b (.policy p)).BundleVersion.Generation = _) ∧
        (UpdateObject env b (.policy p)).LeafHubName = _
      rcases UpdateObject_cases env b p with h | ⟨details, root, cid, h⟩
      · rw [h]; exact ⟨rfl, Or.inl rfl, rfl⟩
      · rw [h, updateResolved_eq]
        split
        · exact ⟨rfl, Or.inr rfl, rfl⟩
        · exact ⟨rfl, Or.inl rfl, rfl⟩

theorem applyCalls_incarnation (b : ClusterPolicyHistoryEventBundle) (cs : List Call) :
    (applyCalls b cs).BundleVersion.Incarnation = b.BundleVersion.Incarnation := by
  induction cs generalizing b with
  | nil => rfl
  | cons c rest ih =>
    rw [applyCalls_cons]
    exact (ih (applyCall b c)).trans (applyCall_version b c).1

/-- As long as the counter cannot reach `2^64`, calls only move `Generation` upwards, by
at most one per call. -/
theorem applyCalls_generation (b : ClusterPolicyHistoryEventBundle) (cs : List Call)
    (h : b.BundleVersion.Generation + cs.length < 18446744073709551616) :
    b.BundleVersion.Generation ≤ (applyCalls b cs).BundleVersion.Generation ∧
    (applyCalls b cs).BundleVersion.Generation ≤ b.BundleVersion.Generation + cs.length := by
  induction cs generalizing b with
  | nil => exact ⟨le_refl _, le_refl _⟩
  | cons c rest ih =>
    rw [applyCalls_cons]
    simp only [List.length_cons] at h ⊢
    have h1 := (applyCall_version b c).2.1
    have h2 := ih (applyCall b c) (by
      rcases h1 with h1 | h1
      · rw [h1]; omega
      · rw [h1]; unfold wrapUint64; omega)
    rcases h1 with h1 | h1
    · rw [h1] at h2; omega
    · rw [h1] at h2
      unfold wrapUint64 at h2
      omega

/-! ## The rows across calls -/

theorem rowStep_init (orig : List LocalClusterPolicyEvent) :
    (∀ x ∈ (initState orig).events, RowStep orig x) ∧
    ∀ n old, (initState orig).eventMap n ≠ none →
      storedEvent (initState orig).events n = some old → old ∈ orig := by
  refine ⟨fun x hx => Or.inl hx, fun n old _ h => ?_⟩
  exact (List.mem_filter.1 (List.mem_of_getLast?_eq_some h)).1

/-- One loop iteration: every row is still a row stored before the call, a row created
with `Count` 1, or a row stored before the call that was updated once; and the rows that
`bundleEventMap` still points to are rows stored before the call. -/
theorem historyStep_rowStep (orig : List LocalClusterPolicyEvent) (r c : String)
    (s : LoopState) (e : String × ComplianceHistory) (hinv : PtrInv s)
    (h1 : ∀ x ∈ s.events, RowStep orig x)
    (h2 : ∀ n old, s.eventMap n ≠ none → storedEvent s.events n = some old → old ∈ orig) :
    (∀ x ∈ (historyStep r c s e).events, RowStep orig x) ∧
    ∀ n old, (historyStep r c s e).eventMap n ≠ none →
      storedEvent (historyStep r c s e).events n = some old → old ∈ orig := by
  have hs := historyStep_spec r c s e.1 e.2 hinv
  have sub : ∀ k y, y ∈ rowsNamed k s.events → RowStep orig y :=
    fun k y hy => h1 y (List.mem_filter.1 hy).1
  constructor
  · intro x hx
    have hxn : x ∈ rowsNamed x.EventName (historyStep r c s e).events := by
      simp [rowsNamed, hx]
    by_cases hne : x.EventName = e.2.EventName
    · rw [hne] at hxn
      rcases hs.2.2 with h | ⟨old, h⟩ | ⟨old, h⟩
      · rw [h.2.2] at hxn
        rcases List.mem_append.1 hxn with h3 | h3
        · exact sub _ x h3
        · simp at h3
          rw [h3]
          exact Or.inr (Or.inl rfl)
      · rw [h.2.2.2.2] at hxn
        rcases List.mem_append.1 hxn with h3 | h3
        · exact sub _ x (List.mem_of_mem_dropLast h3)
        · simp at h3
          rw [h3]
          exact Or.inr (Or.inr ⟨old, h2 _ old h.1 h.2.1, rfl, h.2.2.1, rfl⟩)
      · rw [h.2.2.2.2] at hx
        exact h1 x hx
    · rw [hs.2.1 x.EventName hne] at hxn
      exact sub _ x hxn
  · intro n old hn hst
    rw [historyStep_eventMap] at hn
    simp only [deleteKey] at hn
    by_cases hne : n = e.2.EventName
    · simp [hne] at hn
    · simp only [hne, if_false] at hn
      unfold storedEvent at hst
      rw [hs.2.1 n hne] at hst
      exact h2 n old hn hst

theorem runEntries_rowStep (orig : List LocalClusterPolicyEvent) (r c : String)
    (es : List (String × ComplianceHistory)) (s : LoopState) (hinv : PtrInv s)
    (h1 : ∀ x ∈ s.events, RowStep orig x)
    (h2 : ∀ n old, s.eventMap n ≠ none → storedEvent s.events n = some old → old ∈ orig) :
    ∀ x ∈ (runEntries r c es s).events, RowStep orig x := by
  induction es generalizing s with
  | nil => exact h1
  | cons e rest ih =>
    rw [runEntries_cons]
    have h := historyStep_rowStep orig r c s e hinv h1 h2
    exact ih _ (historyStep_spec r c s e.1 e.2 hinv).1 h.1 h.2

/-- One call: every row stored for an object after the call was stored for it before the
call, or was created with `Count` 1, or is a row stored before whose timestamp changed and
whose `Count` was increased by 1 in Go `int` arithmetic. -/
theorem applyCall_rowStep (b : ClusterPolicyHistoryEventBundle) (c : Call) (uid : String)
    (x : LocalClusterPolicyEvent) (hx : x ∈ eventsOf (applyCall b c) uid) :
    RowStep (eventsOf b uid) x := by
  cases c with
  | delete o =>
    cases o with
    | other u => exact Or.inl hx
    | policy p =>
      by_cases hu : uid = p.UID
      · simp [applyCall, DeleteObject, eventsOf, hu] at hx
      · have : eventsOf (applyCall b (.delete (.policy p))) uid = eventsOf b uid := by
          simp [applyCall, DeleteObject, eventsOf, hu]
        rw [this] at hx
        exact Or.inl hx
  | update env o =>
    cases o with
    | other u => exact Or.inl hx
    | policy p =>
      change x ∈ eventsOf (UpdateObject env b (.policy p)) uid at hx
      rcases UpdateObject_cases env b p with h1 | ⟨details, root, cid, h1⟩
      · rw [h1] at hx; exact Or.inl hx
      · rw [h1] at hx
        by_cases hu : uid = p.UID
        · subst hu
          rw [eventsOf_updateResolved] at hx
          split at hx
          · have hi := rowStep_init (eventsOf b p.UID)
            exact runEntries_rowStep (eventsOf b p.UID) root cid (flatHistory details)
              (initState (eventsOf b p.UID)) (initState_ptrInv _) hi.1 hi.2 x
              (List.mem_filter.1 hx).1
          · exact Or.inl hx
        · rw [updateResolved_eq] at hx
          split at hx
          · simp only [eventsOf, setEvents, hu, if_false] at hx
            exact Or.inl hx
          · exact Or.inl hx

theorem applyCalls_snoc (b : ClusterPolicyHistoryEventBundle) (cs : List Call) (c : Call) :
    applyCalls b (cs ++ [c]) = applyCall (applyCalls b cs) c := by
  rw [applyCalls_append]; rfl

/-- Below `2^63` calls no `Count` can wrap: after `n` calls every `Count` lies between 1
and `n`. -/
theorem applyCalls_counts (leafHubName : String) (incarnation : Nat) (cs : List Call)
    (h : cs.length < 9223372036854775808) :
    ∀ uid, ∀ x ∈ eventsOf (applyCalls
      (NewClusterPolicyHistoryEventBundle leafHubName incarnation) cs) uid,
      1 ≤ x.Count ∧ x.Count ≤ cs.length := by
  induction cs using List.reverseRecOn with
  | nil =>
    intro uid x hx
    simp [applyCalls, eventsOf, NewClusterPolicyHistoryEventBundle] at hx
  | append_singleton cs c ih =>
    intro uid x hx
    simp only [List.length_append, List.length_singleton] at h ⊢
    have ih2 := ih (by omega) uid
    rw [applyCalls_snoc] at hx
    rcases applyCall_rowStep _ c uid x hx with h1 | h1 | ⟨old, ho, _, _, h1⟩
    · have h3 := ih2 x h1
      exact ⟨h3.1, by push_cast; omega⟩
    · exact ⟨by omega, by push_cast; omega⟩
    · have h3 := ih2 old ho
      rw [h1, wrapInt64_id _ (by omega) (by omega)]
      exact ⟨by omega, by push_cast; omega⟩

/-! ## A producer that counts without end -/

theorem tickCalls_succ (n : Nat) : tickCalls (n + 1) = tickCalls n ++ [tickCall (n + 1)] := by
  simp [tickCalls, List.range_succ]

theorem tickCalls_length (n : Nat) : (tickCalls n).length = n := by
  simp [tickCalls]

theorem tick_compliance : deriveCompliance "Compliant; ok" "NonCompliant" = "Compliant" := by
  decide

theorem tick_update (b : ClusterPolicyHistoryEventBundle) (k : Nat) :
    applyCall b (tickCall k) =
      updateResolved b "uid-1" [exDetail [exEntry "e1" (Int.ofNat k) "Compliant; ok"]]
        "root-uid" "cluster-id" :=
  UpdateObject_resolved exEnv b (exPolicy [exEntry "e1" (Int.ofNat k) "Compliant; ok"]) _
    "ns.root" "cluster1" "cluster-id" exRootPolicy rfl rfl rfl rfl rfl

theorem tick_first :
    applyCall (NewClusterPolicyHistoryEventBundle "hub1" 1) (tickCall 1) = tickBundle 1 := by
  rw [tick_update, updateResolved_eq]
  have hm : (finalState (NewClusterPolicyHistoryEventBundle "hub1" 1) "uid-1"
      [exDetail [exEntry "e1" (Int.ofNat 1) "Compliant; ok"]] "root-uid" "cluster-id").modified
      = true := by
    simp [finalState, flatHistory, exDetail, runEntries, historyStep, updatePolicyEvents,
      initState, eventsOf, NewClusterPolicyHistoryEventBundle, buildEventMap, buildEventMapFrom]
  have hs : shrink (finalState (NewClusterPolicyHistoryEventBundle "hub1" 1) "uid-1"
      [exDetail [exEntry "e1" (Int.ofNat 1) "Compliant; ok"]] "root-uid" "cluster-id")
      = [tickRow 1] := by
    simp [shrink, finalState, flatHistory, exDetail, runEntries, historyStep, updatePolicyEvents,
      initState, eventsOf, NewClusterPolicyHistoryEventBundle, buildEventMap, buildEventMapFrom,
      deleteKey, exEntry, tickRow, exRow1, tick_compliance, wrapInt64_one]
  rw [hm, hs]
  simp only [if_true, tickBundle, NewClusterPolicyHistoryEventBundle,
    ClusterPolicyHistoryEventBundle.mk.injEq, BundleVersion.mk.injEq, true_and, and_true]
  funext k
  by_cases h : k = "uid-1" <;> simp [setEvents, h]

theorem tick_step (n : Nat) : applyCall (tickBundle n) (tickCall (n + 1)) = tickBundle (n + 1) := by
  rw [tick_update, updateResolved_eq]
  have hm : (finalState (tickBundle n) "uid-1"
      [exDetail [exEntry "e1" (Int.ofNat (n + 1)) "Compliant; ok"]] "root-uid"
      "cluster-id").modified = true := by
    simp [finalState, flatHistory, exDetail, runEntries, historyStep, updatePolicyEvents,
      initState, eventsOf, tickBundle, buildEventMap, buildEventMapFrom, tickRow, exRow1,
      exEntry, Time.Equal, tAt]
  have hs : shrink (finalState (tickBundle n) "uid-1"
      [exDetail [exEntry "e1" (Int.ofNat (n + 1)) "Compliant; ok"]] "root-uid" "cluster-id")
      = [tickRow (n + 1)] := by
    simp [shrink, finalState, flatHistory, exDetail, runEntries, historyStep, updatePolicyEvents,
      initState, eventsOf, tickBundle, buildEventMap, buildEventMapFrom,
      deleteKey, exEntry, tickRow, exRow1, tick_compliance, Time.Equal, tAt, wrapInt64_succ]
  rw [hm, hs]
  simp only [if_true, tickBundle, ClusterPolicyHistoryEventBundle.mk.injEq,
    BundleVersion.mk.injEq, true_and, and_true]
  refine ⟨?_, wrapUint64_succ n⟩
  funext k
  by_cases h : k = "uid-1" <;> simp [setEvents, h]

/-- The state after `n` calls of the producer, for every `n` from 1 on. -/
theorem tickCalls_state (n : Nat) (h : 0 < n) :
    applyCalls (NewClusterPolicyHistoryEventBundle "hub1" 1) (tickCalls n) = tickBundle n := by
  induction n with
  | zero => omega
  | succ k ih =>
    rw [tickCalls_succ, applyCalls_snoc]
    rcases Nat.eq_zero_or_pos k with hk | hk
    · subst hk
      exact tick_first
    · rw [ih hk]
      exact tick_step k

/-! ## Properties of sequences of calls -/

/-- Claim C11 (amended): `NewClusterPolicyHistoryEventBundle leafHubName incarnation` has no
stored events, the given `LeafHubName`, `Incarnation` equal to the argument and
`Generation` 0; after every sequence of `UpdateObject` and `DeleteObject` calls the
`Incarnation` is still that argument; every further call leaves `Generation` as it is or
moves it to `Generation + 1` in `uint64` arithmetic; and within the first `2^64 - 1` calls
on the bundle further calls never make the `Generation` returned by `GetBundleVersion`
smaller than one returned before. -/
theorem newBundle_version_monotone (leafHubName : String) (incarnation : Nat)
    (calls more : List Call) :
    (NewClusterPolicyHistoryEventBundle leafHubName incarnation).PolicyStatusEvents =
      (fun _ => none) ∧
    (NewClusterPolicyHistoryEventBundle leafHubName incarnation).LeafHubName = leafHubName ∧
    GetBundleVersion (NewClusterPolicyHistoryEventBundle leafHubName incarnation) =
      { Incarnation := incarnation, Generation := 0 } ∧
    (GetBundleVersion (applyCalls
      (NewClusterPolicyHistoryEventBundle leafHubName incarnation) calls)).Incarnation =
        incarnation ∧
    (∀ c : Call,
      (GetBundleVersion (applyCall (applyCalls
        (NewClusterPolicyHistoryEventBundle leafHubName incarnation) calls) c)).Generation =
      (GetBundleVersion (applyCalls
        (NewClusterPolicyHistoryEventBundle leafHubName incarnation) calls)).Generation ∨
      (GetBundleVersion (applyCall (applyCalls
        (NewClusterPolicyHistoryEventBundle leafHubName incarnation) calls) c)).Generation =
      wrapUint64 ((GetBundleVersion (applyCalls
        (NewClusterPolicyHistoryEventBundle leafHubName incarnation) calls)).Generation + 1)) ∧
    ((calls ++ more).length < 18446744073709551616 →
      (GetBundleVersion (applyCalls
        (NewClusterPolicyHistoryEventBundle leafHubName incarnation) calls)).Generation ≤
      (GetBundleVersion (applyCalls
        (NewClusterPolicyHistoryEventBundle leafHubName incarnation)
          (calls ++ more))).Generation) := by
  refine ⟨rfl, rfl, rfl, ?_, ?_, ?_⟩
  · exact applyCalls_incarnation _ calls
  · intro c
    exact (applyCall_version _ c).2.1
  · intro hlen
    simp only [List.length_append] at hlen
    have h1 := applyCalls_generation
      (NewClusterPolicyHistoryEventBundle leafHubName incarnation) calls (by
        simp only [NewClusterPolicyHistoryEventBundle]; omega)
    have h0 : (NewClusterPolicyHistoryEventBundle leafHubName incarnation).BundleVersion.Generation
        = 0 := rfl
    rw [h0] at h1
    rw [applyCalls_append]
    exact (applyCalls_generation _ more (by omega)).1

/-- Claim C16 (amended): in every state reached from a freshly created bundle by a
sequence of fewer than `2^63` `UpdateObject` and `DeleteObject` calls, every stored event
has `Count` at least 1 and at most the number of calls; and every row stored after the
last call of the sequence was stored before that call, or was created with `Count` 1, or is
a row stored before that call whose timestamp changed and whose `Count` was increased by
exactly 1. -/
theorem reachable_count_pos (leafHubName : String) (incarnation : Nat) (calls : List Call)
    (uid : String) (r : LocalClusterPolicyEvent)
    (hlen : calls.length < 9223372036854775808)
    (hr : r ∈ eventsOf (applyCalls
      (NewClusterPolicyHistoryEventBundle leafHubName incarnation) calls) uid) :
    1 ≤ r.Count ∧ r.Count ≤ calls.length ∧
    (r ∈ eventsOf (applyCalls
        (NewClusterPolicyHistoryEventBundle leafHubName incarnation) calls.dropLast) uid ∨
      r.Count = 1 ∨
      ∃ old ∈ eventsOf (applyCalls
          (NewClusterPolicyHistoryEventBundle leafHubName incarnation) calls.dropLast) uid,
        old.EventName = r.EventName ∧ old.CreatedAt.Equal r.CreatedAt = false ∧
        r.Count = old.Count + 1) := by
  have hb := applyCalls_counts leafHubName incarnation calls hlen uid r hr
  refine ⟨hb.1, hb.2, ?_⟩
  rcases List.eq_nil_or_concat calls with h | ⟨cs, c, h⟩
  · subst h
    simp [applyCalls, eventsOf, NewClusterPolicyHistoryEventBundle] at hr
  · subst h
    simp only [List.concat_eq_append] at hr hlen ⊢
    rw [List.dropLast_concat]
    rw [applyCalls_snoc] at hr
    simp only [List.length_append, List.length_singleton] at hlen
    rcases applyCall_rowStep _ c uid r hr with h1 | h1 | ⟨old, ho, hn, ht, h1⟩
    · exact Or.inl h1
    · exact Or.inr (Or.inl h1)
    · have hc := applyCalls_counts leafHubName incarnation cs (by omega) uid old ho
      refine Or.inr (Or.inr ⟨old, ho, hn, ht, ?_⟩)
      rw [h1]
      exact wrapInt64_id _ (by omega) (by omega)

/-- Claim C17: for every bundle state and every policy object with UID `u`,
`UpdateObject` and `DeleteObject` leave the stored event list of every UID other than `u`
exactly unchanged, and leave `LeafHubName` unchanged. -/
theorem other_uid_unchanged (env : Env) (b : ClusterPolicyHistoryEventBundle) (p : Policy)
    (uid : String) (hu : uid ≠ p.UID) :
    (UpdateObject env b (.policy p)).PolicyStatusEvents uid = b.PolicyStatusEvents uid ∧
    (DeleteObject b (.policy p)).PolicyStatusEvents uid = b.PolicyStatusEvents uid ∧
    (UpdateObject env b (.policy p)).LeafHubName = b.LeafHubName ∧
    (DeleteObject b (.policy p)).LeafHubName = b.LeafHubName := by
  refine ⟨?_, by simp [DeleteObject, hu], ?_, rfl⟩
  · rcases UpdateObject_cases env b p with h | ⟨details, root, cid, h⟩
    · rw [h]
    · rw [h, updateResolved_eq]
      split
      · simp [setEvents, hu]
      · rfl
  · exact (applyCall_version b (.update env (.policy p))).2.2

/-- Witness for C11: a fresh bundle, one update that stores `e1@10` and one that moves it
to instant 20: the `Generation` goes from 1 to 2. -/
theorem newBundle_version_monotone_witness :
    (GetBundleVersion (applyCalls (NewClusterPolicyHistoryEventBundle "hub1" 1)
      [.update exEnv (.policy (exPolicy [exEntry "e1" 10 "Compliant; ok"]))])).Generation ≤
    (GetBundleVersion (applyCalls (NewClusterPolicyHistoryEventBundle "hub1" 1)
      ([.update exEnv (.policy (exPolicy [exEntry "e1" 10 "Compliant; ok"]))] ++
       [.update exEnv (.policy (exPolicy [exEntry "e1" 20 "Compliant; ok"]))]))).Generation ∧
    (GetBundleVersion (applyCalls (NewClusterPolicyHistoryEventBundle "hub1" 1)
      ([.update exEnv (.policy (exPolicy [exEntry "e1" 10 "Compliant; ok"]))] ++
       [.update exEnv (.policy (exPolicy [exEntry "e1" 20 "Compliant; ok"]))]))).Generation
      = 2 :=
  ⟨(newBundle_version_monotone "hub1" 1
      [.update exEnv (.policy (exPolicy [exEntry "e1" 10 "Compliant; ok"]))]
      [.update exEnv (.policy (exPolicy [exEntry "e1" 20 "Compliant; ok"]))]).2.2.2.2.2
      (by decide), by decide⟩

/-- Counterexample to C11 as stated: a producer that sees `e1` at a new instant on every
call reaches `Generation` `2^64 - 1` with its first `2^64 - 1` calls, and its next call
moves `Generation` to 0: the version returned then is older than the one returned before.
The last conjunct is that last call on the state reached. -/
theorem newBundle_version_monotone_counterexample :
    (GetBundleVersion (applyCalls (NewClusterPolicyHistoryEventBundle "hub1" 1)
      (tickCalls 18446744073709551615))).Generation = 18446744073709551615 ∧
    (GetBundleVersion (applyCalls (NewClusterPolicyHistoryEventBundle "hub1" 1)
      (tickCalls 18446744073709551615 ++ [tickCall 18446744073709551616]))).Generation = 0 ∧
    applyCalls (NewClusterPolicyHistoryEventBundle "hub1" 1)
      (tickCalls 18446744073709551615) = tickBundle 18446744073709551615 ∧
    (GetBundleVersion (tickBundle 18446744073709551615)).Generation = 18446744073709551615 ∧
    (GetBundleVersion (UpdateObject exEnv (tickBundle 18446744073709551615)
      (.policy (exPolicy [exEntry "e1" 18446744073709551616 "Compliant; ok"])))).Generation
      = 0 := by
  have h1 := tickCalls_state 18446744073709551615 (by decide)
  have h2 : applyCalls (NewClusterPolicyHistoryEventBundle "hub1" 1)
      (tickCalls 18446744073709551615 ++ [tickCall 18446744073709551616]) =
      tickBundle 18446744073709551616 := by
    rw [applyCalls_snoc, h1]
    exact tick_step 18446744073709551615
  refine ⟨?_, ?_, h1, by decide, by decide⟩
  · rw [h1]; decide
  · rw [h2]; decide

/-- Witness for C16: after two updates that move `e1` from instant 10 to instant 20 the
stored row has `Count` 2: it is the row stored before the second call with its timestamp
changed and its `Count` increased by 1. -/
theorem reachable_count_pos_witness :
    (1 : Int) ≤ exRow2.Count ∧
    exRow2.Count ≤ ([Call.update exEnv (.policy (exPolicy [exEntry "e1" 10 "Compliant; ok"])),
      Call.update exEnv (.policy (exPolicy [exEntry "e1" 20 "Compliant; ok"]))]).length :=
  ⟨(reachable_count_pos "hub1" 1
    [.update exEnv (.policy (exPolicy [exEntry "e1" 10 "Compliant; ok"])),
     .update exEnv (.policy (exPolicy [exEntry "e1" 20 "Compliant; ok"]))]
    "uid-1" exRow2 (by decide) (by decide)).1,
   (reachable_count_pos "hub1" 1
    [.update exEnv (.policy (exPolicy [exEntry "e1" 10 "Compliant; ok"])),
     .update exEnv (.policy (exPolicy [exEntry "e1" 20 "Compliant; ok"]))]
    "uid-1" exRow2 (by decide) (by decide)).2.1⟩

/-- Counterexample to C16 as stated: a producer that sees `e1` at a new instant on every
call reaches, with its first `2^63 - 1` calls, a stored row whose `Count` is the largest
`int`; its next call wraps that `Count` around, so that the state reached by `2^63` calls
stores an event whose `Count` is the smallest `int`. The last conjunct is that last call
on the state reached. -/
theorem reachable_count_pos_counterexample :
    (tickCalls 9223372036854775808).length = 9223372036854775808 ∧
    tickRow 9223372036854775808 ∈ eventsOf (applyCalls
      (NewClusterPolicyHistoryEventBundle "hub1" 1) (tickCalls 9223372036854775808)) "uid-1" ∧
    (tickRow 9223372036854775808).Count = -9223372036854775808 ∧
    applyCalls (NewClusterPolicyHistoryEventBundle "hub1" 1)
      (tickCalls 9223372036854775807) = tickBundle 9223372036854775807 ∧
    (eventsOf (tickBundle 9223372036854775807) "uid-1").map (fun r => r.Count) =
      [9223372036854775807] ∧
    (eventsOf (UpdateObject exEnv (tickBundle 9223372036854775807)
      (.policy (exPolicy [exEntry "e1" 9223372036854775808 "Compliant; ok"])))
      "uid-1").map (fun r => r.Count) = [-9223372036854775808] := by
  refine ⟨tickCalls_length _, ?_, by decide,
    tickCalls_state 9223372036854775807 (by decide), by decide, by decide⟩
  rw [tickCalls_state 9223372036854775808 (by decide)]
  simp [eventsOf, tickBundle]

/-- Witness for C17: an update of the object `uid-1` in a bundle that also stores a row
for `uid-2` leaves the rows of `uid-2` and the hub name as they were. -/
theorem other_uid_unchanged_witness :
    (UpdateObject exEnv exBundleTwo
        (.policy (exPolicy [exEntry "e1" 20 "NonCompliant; violation"]))).PolicyStatusEvents
        "uid-2" = exBundleTwo.PolicyStatusEvents "uid-2" ∧
    (DeleteObject exBundleTwo
        (.policy (exPolicy [exEntry "e1" 20 "NonCompliant; violation"]))).PolicyStatusEvents
        "uid-2" = exBundleTwo.PolicyStatusEvents "uid-2" ∧
    (UpdateObject exEnv exBundleTwo
        (.policy (exPolicy [exEntry "e1" 20 "NonCompliant; violation"]))).LeafHubName =
      exBundleTwo.LeafHubName ∧
    (DeleteObject exBundleTwo
        (.policy (exPolicy [exEntry "e1" 20 "NonCompliant; violation"]))).LeafHubName =
      exBundleTwo.LeafHubName :=
  other_uid_unchanged exEnv exBundleTwo (exPolicy [exEntry "e1" 20 "NonCompliant; violation"])
    "uid-2" (by decide)

/-! ## Exact characterisation of ParseCompliance -/

theorem noHit_append_word (pre w : List Char) (hpre : NoHit pre)
    (hw : ∀ c ∈ w, isWordChar c = true) : NoHit (pre ++ w) := by
  intro a c b h
  have hsemi : ';' ∉ w := by
    intro hm
    have := hw _ hm
    rw [isWordChar_semicolon] at this
    cases this
  rcases List.append_eq_append_iff.1 h with ⟨a1, _, h2⟩ | ⟨c1, h1, h2⟩
  · exfalso
    apply hsemi
    rw [h2]
    simp
  · cases c1 with
    | nil =>
      exfalso
      apply hsemi
      simp at h2
      rw [← h2]
      simp
    | cons x xs =>
      cases xs with
      | nil =>
        exfalso
        apply hsemi
        simp at h2
        rw [← h2.2]
        simp
      | cons y ys =>
        simp at h2
        obtain ⟨rfl, rfl, _⟩ := h2
        exact hpre a c ys h1

theorem string_mk_ne_empty (w : List Char) (h : w ≠ []) : String.mk w ≠ "" := by
  intro hc
  apply h
  have : (String.mk w).data = ("" : String).data := by rw [hc]
  simpa using this

/-- Claim C18: for every message, `ParseCompliance` returns a non-empty string exactly
when the message contains a word character (ASCII letter, digit or `_`) immediately
followed by `;`. A non-empty result is a contiguous part of the message that ends directly
before a `;`, consists of word characters only (so it holds no white space and no `;`, and
trimming leaves it as it is), is maximal to the left (the character before it is not a
word character), and its `;` is the leftmost one that directly follows a word character. -/
theorem parseCompliance_exact (message : String) :
    (ParseCompliance message ≠ "" ↔
      ∃ a c b, message.toList = a ++ c :: ';' :: b ∧ isWordChar c = true) ∧
    (ParseCompliance message ≠ "" →
      ∃ pre post, message.toList = pre ++ (ParseCompliance message).toList ++ ';' :: post ∧
        (∀ c ∈ (ParseCompliance message).toList,
          isWordChar c = true ∧ isSpace c = false ∧ c ≠ ';') ∧
        (∀ c, pre.getLast? = some c → isWordChar c = false) ∧
        NoHit (pre ++ (ParseCompliance message).toList) ∧
        TrimSpace (ParseCompliance message) = ParseCompliance message) := by
  rcases findSubmatch_spec message.toList with ⟨h1, h2⟩ | ⟨pre, w, post, h1, h2, h3, h4, h5, h6⟩
  · have hres := ParseCompliance_of_none message h1
    refine ⟨⟨fun h => absurd hres h, ?_⟩, fun h => absurd hres h⟩
    rintro ⟨a, c, b, hab, hc⟩
    have := h2 a c b hab
    rw [hc] at this
    cases this
  · have hres := ParseCompliance_of_some message w h6 h3
    have hne : ParseCompliance message ≠ "" := by
      rw [hres]; exact string_mk_ne_empty w h2
    refine ⟨⟨fun _ => ?_, fun _ => hne⟩, fun _ => ?_⟩
    · refine ⟨pre ++ w.dropLast, w.getLast h2, post, ?_, h3 _ (List.getLast_mem h2)⟩
      rw [h1]
      conv_lhs => rw [← List.dropLast_append_getLast h2]
      simp
    · refine ⟨pre, post, ?_, ?_, h4, ?_, ?_⟩
      · rw [hres]; exact h1
      · rw [hres]
        intro c hc
        have hc1 : c ∈ w := hc
        refine ⟨h3 c hc1, isWordChar_not_space c (h3 c hc1), ?_⟩
        intro hsemi
        have := h3 c hc1
        rw [hsemi, isWordChar_semicolon] at this
        cases this
      · rw [hres]
        exact noHit_append_word pre w h5 h3
      · rw [hres]
        show String.mk (trimSpaceChars w) = String.mk w
        rw [trimSpaceChars_word w h3]

/-! ## reconcileDatabase -/

theorem walkCallback_ok (e : WalkEntry) (h : (walkCallback e).1 = none) :
    e.beforeError = none ∧ (e.isDir = false → (∃ sql, e.readFile = .ok sql) ∧ e.exec = .ok ()) := by
  unfold walkCallback at h
  cases hb : e.beforeError with
  | some x => simp [hb] at h
  | none =>
    refine ⟨rfl, fun hd => ?_⟩
    simp only [hb, hd] at h
    cases hr : e.readFile with
    | error x => simp [hr] at h
    | ok sql =>
      cases hx : e.exec with
      | error x => simp [hr, hx] at h
      | ok u => exact ⟨⟨sql, rfl⟩, rfl⟩

theorem walkDir_ok (entries : List WalkEntry) (h : (walkDir entries).1 = none) :
    AllFilesExecuted entries := by
  induction entries with
  | nil => intro e he; cases he
  | cons e rest ih =>
    unfold walkDir at h
    cases hc : walkCallback e with
    | mk err calls =>
      cases err with
      | some x => simp [hc] at h
      | none =>
        simp only [hc] at h
        have h1 := walkCallback_ok e (by rw [hc])
        intro x hx
        rcases List.mem_cons.1 hx with rfl | hx
        · exact h1
        · exact ih h x hx

/-- When every embedded file is read and executed without error the walk returns nil and
has passed the text of every file to `conn.Exec`, in order. -/
theorem walkDir_all (entries : List WalkEntry) (h : AllFilesExecuted entries) :
    walkDir entries = (none, sqlTexts entries) := by
  induction entries with
  | nil => rfl
  | cons e rest ih =>
    have he := h e (List.mem_cons_self _ _)
    have hrest := ih (fun x hx => h x (List.mem_cons_of_mem _ hx))
    unfold walkDir
    cases hd : e.isDir with
    | true => simp [walkCallback, he.1, hd, hrest, sqlTexts]
    | false =>
      obtain ⟨⟨sql, hsql⟩, hex⟩ := he.2 hd
      simp [walkCallback, he.1, hd, hsql, hex, hrest, sqlTexts]

theorem runDatabaseInit_counter (env : DbEnv) (counter : Int) :
    (runDatabaseInit env counter).DatabaseReconcileCounter = counter ∨
    ((runDatabaseInit env counter).DatabaseReconcileCounter = wrapInt64 (counter + 1) ∧
      AllFilesExecuted env.databaseFS ∧
      (runDatabaseInit env counter).execCalls = sqlTexts env.databaseFS ∧
      (runDatabaseInit env counter).connections ≠ []) := by
  unfold runDatabaseInit
  cases hs : env.getSecret with
  | error x => exact Or.inl rfl
  | ok sec =>
    obtain ⟨uri, ca⟩ := sec
    cases hp : env.PostgresConnection uri ca with
    | error x => simp [hp]
    | ok u =>
      cases hw : walkDir env.databaseFS with
      | mk err calls =>
        cases err with
        | some x => simp [hp]
        | none =>
          have hall := walkDir_ok env.databaseFS (by rw [hw])
          have hcalls : calls = sqlTexts env.databaseFS := by
            have := walkDir_all env.databaseFS hall
            rw [hw] at this
            exact (Prod.mk.inj this).2
          cases hc : env.SetConditionDatabaseInit with
          | error x => simp [hp, hall, hcalls]
          | ok u2 => simp [hp, hall, hcalls]

/-- The first reconcile after a process start, with everything succeeding. -/
theorem runDatabaseInit_success (env : DbEnv) (counter : Int) (uri ca : String)
    (hs : env.getSecret = .ok (uri, ca)) (hp : env.PostgresConnection uri ca = .ok ())
    (hall : AllFilesExecuted env.databaseFS) :
    (runDatabaseInit env counter).execCalls = sqlTexts env.databaseFS ∧
    (runDatabaseInit env counter).DatabaseReconcileCounter = wrapInt64 (counter + 1) ∧
    (env.SetConditionDatabaseInit = .ok () → (runDatabaseInit env counter).err = none) := by
  have hw := walkDir_all env.databaseFS hall
  unfold runDatabaseInit
  cases hc : env.SetConditionDatabaseInit with
  | error x => simp [hs, hp, hw]
  | ok u2 => simp [hs, hp, hw]

theorem runDatabaseInit_connections (env : DbEnv) (counter : Int) (uri ca : String)
    (hs : env.getSecret = .ok (uri, ca)) :
    (runDatabaseInit env counter).connections = [(uri, ca)] := by
  unfold runDatabaseInit
  simp only [hs]
  split
  · rfl
  · split
    · rfl
    · split <;> rfl

theorem exWalk_allFilesExecuted : AllFilesExecuted exWalk := by
  intro e he
  simp only [exWalk, List.mem_cons, List.mem_singleton, List.not_mem_nil, or_false] at he
  rcases he with rfl | rfl | rfl <;> simp

/-- Claim C15: `reconcileDatabase` returns nil without connecting to the database or
executing any SQL when `config.SkipDBInit` holds, or when the database-init condition is
already true and `DatabaseReconcileCounter > 0`. When initialization is not skipped and
the counter is 0 it runs the initialization whether or not the condition is already true:
it returns the error of a failed secret lookup; otherwise it connects with the secret's
URI and certificate, and when the connection succeeds and every embedded file is read and
executed without error it has executed the text of every embedded SQL file, in order, has
set the counter to 1, and returns nil when the condition is set without error. A call
changes `DatabaseReconcileCounter` only by adding 1 (Go `int` arithmetic: exactly
`counter + 1` below the largest `int`), and only when it connected and every embedded SQL
file was executed without error. -/
theorem reconcileDatabase_skip_rule (env : DbEnv) (counter : Int) :
    ((env.SkipDBInit = true ∨ (env.databaseInitConditionTrue = true ∧ 0 < counter)) →
      reconcileDatabase env counter =
        { err := none, DatabaseReconcileCounter := counter, connections := [],
          execCalls := [] }) ∧
    (env.SkipDBInit = false → counter = 0 →
      (∀ e, env.getSecret = .error e →
        reconcileDatabase env counter =
          { err := some e, DatabaseReconcileCounter := 0, connections := [],
            execCalls := [] }) ∧
      (∀ uri ca, env.getSecret = .ok (uri, ca) →
        (reconcileDatabase env counter).connections = [(uri, ca)] ∧
        (env.PostgresConnection uri ca = .ok () → AllFilesExecuted env.databaseFS →
          (reconcileDatabase env counter).execCalls = sqlTexts env.databaseFS ∧
          (reconcileDatabase env counter).DatabaseReconcileCounter = 1 ∧
          (env.SetConditionDatabaseInit = .ok () →
            (reconcileDatabase env counter).err = none)))) ∧
    ((reconcileDatabase env counter).DatabaseReconcileCounter ≠ counter →
      (reconcileDatabase env counter).DatabaseReconcileCounter = wrapInt64 (counter + 1) ∧
      AllFilesExecuted env.databaseFS ∧
      (reconcileDatabase env counter).execCalls = sqlTexts env.databaseFS ∧
      (reconcileDatabase env counter).connections ≠ []) ∧
    (-9223372036854775808 ≤ counter → counter < 9223372036854775807 →
      wrapInt64 (counter + 1) = counter + 1) := by
  refine ⟨?_, ?_, ?_, ?_⟩
  · rintro (h | ⟨h1, h2⟩)
    · simp [reconcileDatabase, h]
    · unfold reconcileDatabase
      split
      · rfl
      · simp [h1, h2]
  · intro h1 h2
    have he : reconcileDatabase env counter = runDatabaseInit env counter := by
      simp [reconcileDatabase, h1, h2]
    rw [he]
    subst h2
    refine ⟨fun e hs => ?_, fun uri ca hs => ⟨runDatabaseInit_connections env 0 uri ca hs,
      fun hp hall => ?_⟩⟩
    · simp [runDatabaseInit, hs]
    · have h := runDatabaseInit_success env 0 uri ca hs hp hall
      exact ⟨h.1, h.2.1.trans (by decide), h.2.2⟩
  · intro h
    unfold reconcileDatabase at h ⊢
    split at h
    · exact absurd rfl h
    · split at h
      · exact absurd rfl h
      · rename_i h1 h2
        simp only [h1, h2]
        rcases runDatabaseInit_counter env counter with h3 | h3
        · exact absurd h3 h
        · simpa using h3
  · intro h1 h2
    unfold wrapInt64; omega

/-- Witness for C15: the first reconcile after a start (counter 0, condition already true)
connects, executes both embedded files in order, sets the counter to 1 and returns nil. -/
theorem reconcileDatabase_skip_rule_witness :
    (reconcileDatabase (exDbEnv false true) 0).connections = [("postgres://storage", "ca")] ∧
    (reconcileDatabase (exDbEnv false true) 0).execCalls =
      ["CREATE SCHEMA status;", "CREATE TABLE status.compliance ();"] ∧
    (reconcileDatabase (exDbEnv false true) 0).DatabaseReconcileCounter = 1 ∧
    (reconcileDatabase (exDbEnv false true) 0).err = none :=
  ⟨(((reconcileDatabase_skip_rule (exDbEnv false true) 0).2.1 rfl rfl).2
      "postgres://storage" "ca" rfl).1,
   ((((reconcileDatabase_skip_rule (exDbEnv false true) 0).2.1 rfl rfl).2
      "postgres://storage" "ca" rfl).2 rfl exWalk_allFilesExecuted).1,
   ((((reconcileDatabase_skip_rule (exDbEnv false true) 0).2.1 rfl rfl).2
      "postgres://storage" "ca" rfl).2 rfl exWalk_allFilesExecuted).2.1,
   ((((reconcileDatabase_skip_rule (exDbEnv false true) 0).2.1 rfl rfl).2
      "postgres://storage" "ca" rfl).2 rfl exWalk_allFilesExecuted).2.2 rfl⟩

/-- A first reconcile after a start (counter 0, condition already true) runs both embedded
files and counts; a later reconcile (counter 1) and a skipped one do nothing. -/
theorem reconcileDatabase_examples :
    reconcileDatabase (exDbEnv false true) 0 =
      { err := none, DatabaseReconcileCounter := 1,
        connections := [("postgres://storage", "ca")],
        execCalls := ["CREATE SCHEMA status;", "CREATE TABLE status.compliance ();"] } ∧
    reconcileDatabase (exDbEnv false true) 1 =
      { err := none, DatabaseReconcileCounter := 1, connections := [], execCalls := [] } ∧
    reconcileDatabase (exDbEnv true false) 0 =
      { err := none, DatabaseReconcileCounter := 0, connections := [], execCalls := [] } := by
  decide

/-! ## The Merge Engine: one write -/

theorem upsertCompliance_mem (ins : Bool) (P hub : String) (rows : List ComplianceRecord)
    (t : String × ComplianceStatus) (x : ComplianceRecord)
    (hx : x ∈ upsertCompliance ins P hub rows t) :
    (rowOf P hub t.1 x → x.Compliance = t.2) ∧ (¬ rowOf P hub t.1 x → x ∈ rows) := by
  unfold upsertCompliance at hx
  split at hx
  · obtain ⟨r, hr, hrx⟩ := List.mem_map.1 hx
    by_cases hk : rowOf P hub t.1 r
    · simp only [hk, if_true] at hrx
      subst hrx
      exact ⟨fun _ => rfl, fun hn => absurd hk hn⟩
    · simp only [hk, if_false] at hrx
      subst hrx
      exact ⟨fun h => absurd h hk, fun _ => hr⟩
  · split at hx
    · rcases List.mem_append.1 hx with h | h
      · rename_i hany _
        refine ⟨fun hk => ?_, fun _ => h⟩
        exfalso
        apply hany
        simp only [List.any_eq_true, decide_eq_true_eq]
        exact ⟨x, h, hk⟩
      · simp at h
        subst h
        exact ⟨fun _ => rfl, fun hn => absurd ⟨rfl, rfl, rfl⟩ hn⟩
    · rename_i hany _
      refine ⟨fun hk => ?_, fun _ => hx⟩
      exfalso
      apply hany
      simp only [List.any_eq_true, decide_eq_true_eq]
      exact ⟨x, hx, hk⟩

theorem upsertCompliance_filter (ins : Bool) (P hub : String) (clusters : List String)
    (rows : List ComplianceRecord) (t : String × ComplianceStatus) (ht : t.1 ∈ clusters) :
    (upsertCompliance ins P hub rows t).filter (unlistedRow P hub clusters) =
      rows.filter (unlistedRow P hub clusters) := by
  have hmap : (rows.map (fun r =>
      if rowOf P hub t.1 r then { r with Compliance := t.2 } else r)).filter
        (unlistedRow P hub clusters) = rows.filter (unlistedRow P hub clusters) := by
    induction rows with
    | nil => rfl
    | cons r rest ih =>
      by_cases hk : rowOf P hub t.1 r
      · have h1 : unlistedRow P hub clusters r = false := by
          obtain ⟨a, b, c⟩ := hk
          simp [unlistedRow, a, b, c, ht]
        have h2 : unlistedRow P hub clusters { r with Compliance := t.2 } = false := by
          obtain ⟨a, b, c⟩ := hk
          simp [unlistedRow, a, b, c, ht]
        simp only [List.map_cons, hk, if_true, List.filter_cons, h1, h2]
        exact ih
      · simp only [List.map_cons, hk, if_false, List.filter_cons]
        rw [ih]
  unfold upsertCompliance
  split
  · exact hmap
  · split
    · rw [List.filter_append]
      simp [unlistedRow, ht]
    · rfl

theorem upsertCompliance_keys (ins : Bool) (P hub : String) (rows : List ComplianceRecord)
    (t : String × ComplianceStatus) (r : ComplianceRecord) (hr : r ∈ rows) :
    ∃ x ∈ upsertCompliance ins P hub rows t, rowKey x = rowKey r ∧ x.Error = r.Error := by
  unfold upsertCompliance
  split
  · by_cases hk : rowOf P hub t.1 r
    · refine ⟨{ r with Compliance := t.2 }, ?_, rfl, rfl⟩
      apply List.mem_map.2
      exact ⟨r, hr, by simp [hk]⟩
    · refine ⟨r, ?_, rfl, rfl⟩
      apply List.mem_map.2
      exact ⟨r, hr, by simp [hk]⟩
  · split
    · exact ⟨r, List.mem_append_left _ hr, rfl, rfl⟩
    · exact ⟨r, hr, rfl, rfl⟩

/-! ## The Merge Engine: a list of writes -/

theorem foldl_snoc {α β : Type} (f : β → α → β) (b : β) (l : List α) (a : α) :
    (l ++ [a]).foldl f b = f (l.foldl f b) a := by
  simp [List.foldl_append]

/-- After a list of writes that lists no cluster under two statuses, every row of a listed
cluster of the scope has the listed compliance. -/
theorem writes_listed (ins : Bool) (P hub : String) (ts : List (String × ComplianceStatus))
    (rows : List ComplianceRecord)
    (hcons : ∀ c s s2, (c, s) ∈ ts → (c, s2) ∈ ts → s = s2)
    (x : ComplianceRecord) (hx : x ∈ ts.foldl (upsertCompliance ins P hub) rows)
    (c : String) (s : ComplianceStatus) (hcs : (c, s) ∈ ts) (hk : rowOf P hub c x) :
    x.Compliance = s := by
  induction ts using List.reverseRecOn generalizing x c s with
  | nil => cases hcs
  | append_singleton ts0 t ih =>
    rw [foldl_snoc] at hx
    have hm := upsertCompliance_mem ins P hub _ t x hx
    by_cases hkt : rowOf P hub t.1 x
    · have h1 := hm.1 hkt
      have hc : c = t.1 := hk.2.2.symm.trans hkt.2.2
      have : s = t.2 := by
        apply hcons c s t.2 hcs
        rw [hc]
        simp
      rw [this]; exact h1
    · have hx0 := hm.2 hkt
      have hcs0 : (c, s) ∈ ts0 := by
        rcases List.mem_append.1 hcs with h | h
        · exact h
        · exfalso
          simp at h
          apply hkt
          rw [← h]
          exact hk
      exact ih (fun c s s2 h1 h2 => hcons c s s2 (List.mem_append_left _ h1)
        (List.mem_append_left _ h2)) x hx0 c s hcs0 hk

/-- A row that is not of a listed cluster of the scope comes unchanged from before the
writes. -/
theorem writes_unlisted (ins : Bool) (P hub : String) (ts : List (String × ComplianceStatus))
    (rows : List ComplianceRecord)
    (x : ComplianceRecord) (hx : x ∈ ts.foldl (upsertCompliance ins P hub) rows)
    (hk : ∀ t ∈ ts, ¬ rowOf P hub t.1 x) : x ∈ rows := by
  induction ts using List.reverseRecOn generalizing x with
  | nil => exact hx
  | append_singleton ts0 t ih =>
    rw [foldl_snoc] at hx
    have hm := upsertCompliance_mem ins P hub _ t x hx
    have hx0 := hm.2 (hk t (by simp))
    exact ih x hx0 (fun t0 ht0 => hk t0 (List.mem_append_left _ ht0))

theorem writes_filter (ins : Bool) (P hub : String) (clusters : List String)
    (ts : List (String × ComplianceStatus)) (rows : List ComplianceRecord)
    (hts : ∀ t ∈ ts, t.1 ∈ clusters) :
    (ts.foldl (upsertCompliance ins P hub) rows).filter (unlistedRow P hub clusters) =
      rows.filter (unlistedRow P hub clusters) := by
  induction ts generalizing rows with
  | nil => rfl
  | cons t rest ih =>
    rw [List.foldl_cons, ih _ (fun t0 h0 => hts t0 (List.mem_cons_of_mem _ h0))]
    exact upsertCompliance_filter ins P hub clusters rows t (hts t (List.mem_cons_self _ _))

theorem writes_keys (ins : Bool) (P hub : String) (ts : List (String × ComplianceStatus))
    (rows : List ComplianceRecord) (r : ComplianceRecord) (hr : r ∈ rows) :
    ∃ x ∈ ts.foldl (upsertCompliance ins P hub) rows,
      rowKey x = rowKey r ∧ x.Error = r.Error := by
  induction ts generalizing rows r with
  | nil => exact ⟨r, hr, rfl, rfl⟩
  | cons t rest ih =>
    rw [List.foldl_cons]
    obtain ⟨y, hy, hky, hey⟩ := upsertCompliance_keys ins P hub rows t r hr
    obtain ⟨x, hx, hkx, hex⟩ := ih _ y hy
    exact ⟨x, hx, hkx.trans hky, hex.trans hey⟩

theorem newerThan_irrefl (v : BundleVersion) : v.NewerThan v = false := by
  simp [BundleVersion.NewerThan]

/-! ## The Merge Engine: properties -/

theorem deltaTransitions_mem (b : DeltaBundle) (c : String) (s : ComplianceStatus) :
    (c, s) ∈ deltaTransitions b ↔
      (s = .compliant ∧ c ∈ b.CompliantClusters) ∨
      (s = .non_compliant ∧ c ∈ b.NonCompliantClusters) ∨
      (s = .unknown ∧ c ∈ b.UnknownComplianceClusters) := by
  simp only [deltaTransitions, List.mem_append, List.mem_map, Prod.mk.injEq]
  constructor
  · rintro ((⟨a, h1, rfl, rfl⟩ | ⟨a, h1, rfl, rfl⟩) | ⟨a, h1, rfl, rfl⟩)
    · exact Or.inl ⟨rfl, h1⟩
    · exact Or.inr (Or.inl ⟨rfl, h1⟩)
    · exact Or.inr (Or.inr ⟨rfl, h1⟩)
  · rintro (⟨rfl, h⟩ | ⟨rfl, h⟩ | ⟨rfl, h⟩)
    · exact Or.inl (Or.inl ⟨c, h, rfl, rfl⟩)
    · exact Or.inl (Or.inr ⟨c, h, rfl, rfl⟩)
    · exact Or.inr ⟨c, h, rfl, rfl⟩

theorem completeTransitions_mem (b : CompleteBundle) (c : String) (s : ComplianceStatus) :
    (c, s) ∈ completeTransitions b ↔
      (s = .non_compliant ∧ c ∈ b.NonCompliantClusters) ∨
      (s = .unknown ∧ c ∈ b.UnknownComplianceClusters) := by
  simp only [completeTransitions, List.mem_append, List.mem_map, Prod.mk.injEq]
  constructor
  · rintro (⟨a, h1, rfl, rfl⟩ | ⟨a, h1, rfl, rfl⟩)
    · exact Or.inl ⟨rfl, h1⟩
    · exact Or.inr ⟨rfl, h1⟩
  · rintro (⟨rfl, h⟩ | ⟨rfl, h⟩)
    · exact Or.inl ⟨c, h, rfl, rfl⟩
    · exact Or.inr ⟨c, h, rfl, rfl⟩

theorem applyDelta_accepted_rows (ins : Bool) (st : MergeState) (b : DeltaBundle)
    (hacc : st.storedVersion b.PolicyID b.LeafHubName = some b.BaseVersion) :
    (applyDelta ins st b).rows =
      (deltaTransitions b).foldl (upsertCompliance ins b.PolicyID b.LeafHubName) st.rows := by
  simp [applyDelta, hacc]

theorem applyComplete_accepted_rows (ins : Bool) (st : MergeState) (b : CompleteBundle)
    (hacc : completeAccepted st b = true) :
    (applyComplete ins st b).rows =
      (completeTransitions b).foldl (upsertCompliance ins b.PolicyID b.LeafHubName)
        (compliantByOmission b st.rows) := by
  simp [applyComplete, hacc]

/-- Claim C12: a Delta bundle whose base version does not match the version stored for
its scope (in particular a base version older than the stored one) is dropped: the
compliance rows, and the whole stored state, are exactly as before. -/
theorem delta_base_mismatch (insertMissing : Bool) (st : MergeState) (b : DeltaBundle)
    (h : st.storedVersion b.PolicyID b.LeafHubName ≠ some b.BaseVersion ∨
      ∃ v, st.storedVersion b.PolicyID b.LeafHubName = some v ∧
        v.NewerThan b.BaseVersion = true) :
    (applyDelta insertMissing st b).rows = st.rows ∧ applyDelta insertMissing st b = st := by
  have hne : st.storedVersion b.PolicyID b.LeafHubName ≠ some b.BaseVersion := by
    rcases h with h | ⟨v, hv, hnew⟩
    · exact h
    · intro hc
      rw [hv] at hc
      have hvb : v = b.BaseVersion := Option.some.inj hc
      rw [hvb, newerThan_irrefl] at hnew
      cases hnew
  have : applyDelta insertMissing st b = st := by simp [applyDelta, hne]
  exact ⟨by rw [this], this⟩

/-- Claim C13 (amended): for every stored state and every accepted Delta bundle (base
version equal to the version of the last applied Complete bundle of the scope) that lists
no cluster under two statuses, the rows of the listed clusters of the scope end with the
listed compliance, the rows that are not of a listed cluster of the scope are exactly as
before, and no row is deleted. -/
theorem delta_accepted (insertMissing : Bool) (st : MergeState) (b : DeltaBundle)
    (hacc : st.storedVersion b.PolicyID b.LeafHubName = some b.BaseVersion)
    (hdisj : (∀ c ∈ b.CompliantClusters,
        c ∉ b.NonCompliantClusters ∧ c ∉ b.UnknownComplianceClusters) ∧
      ∀ c ∈ b.NonCompliantClusters, c ∉ b.UnknownComplianceClusters) :
    (∀ x ∈ (applyDelta insertMissing st b).rows,
      x.PolicyID = b.PolicyID → x.LeafHubName = b.LeafHubName →
        (x.ClusterName ∈ b.CompliantClusters → x.Compliance = .compliant) ∧
        (x.ClusterName ∈ b.NonCompliantClusters → x.Compliance = .non_compliant) ∧
        (x.ClusterName ∈ b.UnknownComplianceClusters → x.Compliance = .unknown)) ∧
    (applyDelta insertMissing st b).rows.filter
        (unlistedRow b.PolicyID b.LeafHubName (deltaListedClusters b)) =
      st.rows.filter (unlistedRow b.PolicyID b.LeafHubName (deltaListedClusters b)) ∧
    (∀ r ∈ st.rows, ∃ x ∈ (applyDelta insertMissing st b).rows,
      rowKey x = rowKey r ∧ x.Error = r.Error) := by
  rw [applyDelta_accepted_rows insertMissing st b hacc]
  have hcons : ∀ c s s2, (c, s) ∈ deltaTransitions b → (c, s2) ∈ deltaTransitions b →
      s = s2 := by
    intro c s s2 h1 h2
    rw [deltaTransitions_mem] at h1 h2
    rcases h1 with ⟨rfl, h1⟩ | ⟨rfl, h1⟩ | ⟨rfl, h1⟩ <;>
      rcases h2 with ⟨rfl, h2⟩ | ⟨rfl, h2⟩ | ⟨rfl, h2⟩
    · rfl
    · exact absurd h2 (hdisj.1 c h1).1
    · exact absurd h2 (hdisj.1 c h1).2
    · exact absurd h1 (hdisj.1 c h2).1
    · rfl
    · exact absurd h2 (hdisj.2 c h1)
    · exact absurd h1 (hdisj.1 c h2).2
    · exact absurd h1 (hdisj.2 c h2)
    · rfl
  refine ⟨?_, ?_, ?_⟩
  · intro x hx hp hh
    have key : ∀ s, (x.ClusterName, s) ∈ deltaTransitions b → x.Compliance = s :=
      fun s hs => writes_listed insertMissing _ _ _ _ hcons x hx x.ClusterName s hs
        ⟨hp, hh, rfl⟩
    refine ⟨fun h => key _ ?_, fun h => key _ ?_, fun h => key _ ?_⟩
    · exact (deltaTransitions_mem b _ _).2 (Or.inl ⟨rfl, h⟩)
    · exact (deltaTransitions_mem b _ _).2 (Or.inr (Or.inl ⟨rfl, h⟩))
    · exact (deltaTransitions_mem b _ _).2 (Or.inr (Or.inr ⟨rfl, h⟩))
  · apply writes_filter
    intro t ht
    have := (deltaTransitions_mem b t.1 t.2).1 ht
    simp only [deltaListedClusters, List.mem_append]
    rcases this with ⟨_, h⟩ | ⟨_, h⟩ | ⟨_, h⟩
    · exact Or.inl (Or.inl h)
    · exact Or.inl (Or.inr h)
    · exact Or.inr h
  · intro r hr
    exact writes_keys insertMissing _ _ _ _ r hr

/-- Claim C14 (amended): for every policy scope, after an accepted Complete bundle (one
whose version is newer than the version stored for the scope) that lists no cluster both
as non-compliant and as unknown, every in-scope cluster listed as non-compliant has
compliance non_compliant, every in-scope cluster listed as unknown has compliance
unknown, every other in-scope cluster has compliance compliant, and no row is deleted. -/
theorem complete_accepted (insertMissing : Bool) (st : MergeState) (b : CompleteBundle)
    (hacc : completeAccepted st b = true)
    (hdisj : ∀ c ∈ b.NonCompliantClusters, c ∉ b.UnknownComplianceClusters) :
    (∀ x ∈ (applyComplete insertMissing st b).rows,
      x.PolicyID = b.PolicyID → x.LeafHubName = b.LeafHubName →
        (x.ClusterName ∈ b.NonCompliantClusters → x.Compliance = .non_compliant) ∧
        (x.ClusterName ∈ b.UnknownComplianceClusters → x.Compliance = .unknown) ∧
        (x.ClusterName ∉ b.NonCompliantClusters →
          x.ClusterName ∉ b.UnknownComplianceClusters → x.Compliance = .compliant)) ∧
    (∀ r ∈ st.rows, ∃ x ∈ (applyComplete insertMissing st b).rows,
      rowKey x = rowKey r ∧ x.Error = r.Error) := by
  rw [applyComplete_accepted_rows insertMissing st b hacc]
  have hcons : ∀ c s s2, (c, s) ∈ completeTransitions b → (c, s2) ∈ completeTransitions b →
      s = s2 := by
    intro c s s2 h1 h2
    rw [completeTransitions_mem] at h1 h2
    rcases h1 with ⟨rfl, h1⟩ | ⟨rfl, h1⟩ <;> rcases h2 with ⟨rfl, h2⟩ | ⟨rfl, h2⟩
    · rfl
    · exact absurd h2 (hdisj c h1)
    · exact absurd h1 (hdisj c h2)
    · rfl
  refine ⟨?_, ?_⟩
  · intro x hx hp hh
    have key : ∀ s, (x.ClusterName, s) ∈ completeTransitions b → x.Compliance = s :=
      fun s hs => writes_listed insertMissing _ _ _ _ hcons x hx x.ClusterName s hs
        ⟨hp, hh, rfl⟩
    refine ⟨fun h => key _ ?_, fun h => key _ ?_, fun h1 h2 => ?_⟩
    · exact (completeTransitions_mem b _ _).2 (Or.inl ⟨rfl, h⟩)
    · exact (completeTransitions_mem b _ _).2 (Or.inr ⟨rfl, h⟩)
    · have hx0 : x ∈ compliantByOmission b st.rows := by
        apply writes_unlisted insertMissing _ _ _ _ x hx
        intro t ht hk
        have hc : t.1 = x.ClusterName := hk.2.2.symm
        rcases (completeTransitions_mem b t.1 t.2).1 ht with ⟨_, h⟩ | ⟨_, h⟩
        · exact h1 (hc ▸ h)
        · exact h2 (hc ▸ h)
      obtain ⟨r, _, hrx⟩ := List.mem_map.1 hx0
      by_cases hr : r.PolicyID = b.PolicyID ∧ r.LeafHubName = b.LeafHubName ∧
          r.ClusterName ∉ b.NonCompliantClusters ∧
          r.ClusterName ∉ b.UnknownComplianceClusters
      · rw [if_pos hr] at hrx
        rw [← hrx]
      · rw [if_neg hr] at hrx
        subst hrx
        exact absurd ⟨hp, hh, h1, h2⟩ hr
  · intro r hr
    have h0 : ∃ y ∈ compliantByOmission b st.rows, rowKey y = rowKey r ∧ y.Error = r.Error := by
      refine ⟨_, List.mem_map.2 ⟨r, hr, rfl⟩, ?_⟩
      split <;> exact ⟨rfl, rfl⟩
    obtain ⟨y, hy, hky, hey⟩ := h0
    obtain ⟨x, hx, hkx, hex⟩ := writes_keys insertMissing _ _ (completeTransitions b) _ y hy
    exact ⟨x, hx, hkx.trans hky, hex.trans hey⟩

/-! ## The Merge Engine: witnesses and counterexamples -/

/-- Witness for C12 (scenario 3): with version 6.0 stored for the scope, a Delta bundle
whose base version is 2.0 leaves the rows as they are. -/
theorem delta_base_mismatch_witness :
    (applyDelta false (exMergeState
        [exRecord "cluster1" .non_compliant, exRecord "cluster2" .compliant])
        exDeltaOldBase).rows =
      (exMergeState [exRecord "cluster1" .non_compliant, exRecord "cluster2" .compliant]).rows ∧
    applyDelta false (exMergeState
        [exRecord "cluster1" .non_compliant, exRecord "cluster2" .compliant]) exDeltaOldBase =
      exMergeState [exRecord "cluster1" .non_compliant, exRecord "cluster2" .compliant] :=
  delta_base_mismatch false
    (exMergeState [exRecord "cluster1" .non_compliant, exRecord "cluster2" .compliant])
    exDeltaOldBase (Or.inr ⟨{ Incarnation := 6, Generation := 0 }, by decide, by decide⟩)

/-- Witness for C13 (the test's first Delta bundle): from the rows `cluster1`
non-compliant and `cluster2` compliant, the delta that lists `cluster1` as compliant and
`cluster3` as non-compliant leaves the row of `cluster2`, which it does not list, as it
was. -/
theorem delta_accepted_witness :
    (applyDelta false (exMergeState
        [exRecord "cluster1" .non_compliant, exRecord "cluster2" .compliant])
        exDelta).rows.filter
        (unlistedRow exDelta.PolicyID exDelta.LeafHubName (deltaListedClusters exDelta)) =
      (exMergeState
        [exRecord "cluster1" .non_compliant, exRecord "cluster2" .compliant]).rows.filter
        (unlistedRow exDelta.PolicyID exDelta.LeafHubName (deltaListedClusters exDelta)) :=
  (delta_accepted false
    (exMergeState [exRecord "cluster1" .non_compliant, exRecord "cluster2" .compliant])
    exDelta (by decide) (by decide)).2.1

/-- Counterexample to C13 as stated: an accepted Delta bundle that lists `cluster1` both as
compliant and as non-compliant leaves the row of `cluster1` non-compliant, so the row of a
cluster listed as compliant does not end compliant (whether or not missing rows are
inserted). -/
theorem delta_accepted_counterexample :
    (exMergeState [exRecord "cluster1" .unknown]).storedVersion
        exDeltaTwice.PolicyID exDeltaTwice.LeafHubName = some exDeltaTwice.BaseVersion ∧
    "cluster1" ∈ exDeltaTwice.CompliantClusters ∧
    (applyDelta false (exMergeState [exRecord "cluster1" .unknown]) exDeltaTwice).rows =
      [exRecord "cluster1" .non_compliant] ∧
    (applyDelta true (exMergeState [exRecord "cluster1" .unknown]) exDeltaTwice).rows =
      [exRecord "cluster1" .non_compliant] := by
  decide

/-- Witness for C14 (the test's Complete bundle): from the rows `cluster1` compliant and
`cluster2` non-compliant, the bundle that lists `cluster1` as non-compliant and `cluster3`
as unknown keeps a row for each of the two clusters. -/
theorem complete_accepted_witness :
    ∃ x ∈ (applyComplete false (exMergeState0
        [exRecord "cluster1" .compliant, exRecord "cluster2" .non_compliant]) exComplete).rows,
      rowKey x = rowKey (exRecord "cluster2" .non_compliant) ∧
      x.Error = (exRecord "cluster2" .non_compliant).Error :=
  (complete_accepted false
    (exMergeState0 [exRecord "cluster1" .compliant, exRecord "cluster2" .non_compliant])
    exComplete (by decide) (by decide)).2 (exRecord "cluster2" .non_compliant) (by decide)

/-- The test's scenario for C14: the Complete bundle turns `cluster1` non-compliant and
`cluster2` compliant; `cluster3`, listed as unknown, gets a row only if missing rows are
inserted. -/
theorem complete_test_scenario :
    (applyComplete false (exMergeState0
        [exRecord "cluster1" .compliant, exRecord "cluster2" .non_compliant]) exComplete).rows =
      [exRecord "cluster1" .non_compliant, exRecord "cluster2" .compliant] ∧
    (applyComplete true (exMergeState0
        [exRecord "cluster1" .compliant, exRecord "cluster2" .non_compliant]) exComplete).rows =
      [exRecord "cluster1" .non_compliant, exRecord "cluster2" .compliant,
       exRecord "cluster3" .unknown] := by
  decide

/-- Counterexample to C14 as stated: an accepted Complete bundle that lists `cluster1`
both as non-compliant and as unknown leaves the row of `cluster1` unknown, not
non_compliant; and a Complete bundle whose version 6.0 is not newer than the stored
version 6.0 is dropped, so `cluster1`, listed as non-compliant, stays compliant. -/
theorem complete_accepted_counterexample :
    completeAccepted (exMergeState0 [exRecord "cluster1" .compliant]) exCompleteTwice = true ∧
    "cluster1" ∈ exCompleteTwice.NonCompliantClusters ∧
    (applyComplete false (exMergeState0 [exRecord "cluster1" .compliant])
        exCompleteTwice).rows = [exRecord "cluster1" .unknown] ∧
    (applyComplete true (exMergeState0 [exRecord "cluster1" .compliant])
        exCompleteTwice).rows = [exRecord "cluster1" .unknown] ∧
    completeAccepted (exMergeState [exRecord "cluster1" .compliant]) exComplete = false ∧
    "cluster1" ∈ exComplete.NonCompliantClusters ∧
    (applyComplete false (exMergeState [exRecord "cluster1" .compliant]) exComplete).rows =
      [exRecord "cluster1" .compliant] ∧
    (applyComplete true (exMergeState [exRecord "cluster1" .compliant]) exComplete).rows =
      [exRecord "cluster1" .compliant] := by
  decide

end Grc
